import Mathlib

/-!
# Verification of the tv_scraper streaming subsystem

A shallow embedding of `tv_scraper/streaming/stream_handler.py`,
`tv_scraper/streaming/streamer.py` and `tv_scraper/streaming/price.py`.

Python JSON values are modelled by the mutual inductive `Json`
(JSON numbers are modelled as integers: every number appearing in the
outgoing protocol calls is an integer, and incoming numeric fields are
passed through untouched).  Python strings are modelled by Lean `String`
(sequences of Unicode scalar values; Python lone surrogates are not
representable).  `json.dumps(obj, separators=(",", ":"))` with the default
`ensure_ascii=True` is modelled by `dumps`, `json.loads` by `loads`.
Python exceptions are modelled by `Except String`; the carried message is a
coarse tag except where the source raises with a known message.
-/

mutual

/-- JSON values (mutually with array element lists and object member lists,
both order-preserving, mirroring Python dict insertion order). -/
inductive Json where
  | null : Json
  | bool (b : Bool) : Json
  | num (n : Int) : Json
  | str (s : String) : Json
  | arr (xs : JsonA) : Json
  | obj (kvs : JsonO) : Json

/-- Lists of JSON array elements. -/
inductive JsonA where
  | nil : JsonA
  | cons (hd : Json) (tl : JsonA) : JsonA

/-- Lists of JSON object members (key/value pairs, in insertion order). -/
inductive JsonO where
  | nil : JsonO
  | cons (k : String) (v : Json) (tl : JsonO) : JsonO

end

/-- The decimal digit character for `n < 10`. -/
def digitChar (n : Nat) : Char := Char.ofNat (48 + n)

/-- Lowercase hexadecimal digit character for `n < 16`. -/
def hexChar (n : Nat) : Char := if n < 10 then Char.ofNat (48 + n) else Char.ofNat (87 + n)

/-- Fuel-driven decimal rendering of a natural number (fuel ≥ n + 1 suffices). -/
def natDecAux : Nat → Nat → List Char
  | 0, _ => []
  | fuel + 1, n => if n < 10 then [digitChar n] else natDecAux fuel (n / 10) ++ [digitChar (n % 10)]

/-- Decimal digit list of a natural number, most significant first
(the Python `str(n)` / f-string rendering for `n ≥ 0`). -/
def natDec (n : Nat) : List Char := natDecAux (n + 1) n

/-- Decimal rendering of a natural number as a string. -/
def natDecStr (n : Nat) : String := ⟨natDec n⟩

/-- Decimal rendering of an integer (Python `str(i)` / `json.dumps(i)`). -/
def intDec (n : Int) : List Char :=
  if n < 0 then '-' :: natDec n.natAbs else natDec n.toNat

/-- Four-digit lowercase hex rendering of `n < 0x10000`, as used in `\uXXXX` escapes. -/
def hex4 (n : Nat) : List Char :=
  [hexChar (n / 4096 % 16), hexChar (n / 256 % 16), hexChar (n / 16 % 16), hexChar (n % 16)]

/-- The escape of one character in a JSON string literal, following Python
`json.dumps` with `ensure_ascii=True`: short escapes for `"` `\` and the five
control characters that have them, `\u00xx` for the other control characters,
characters 0x20–0x7E literal, and `\uxxxx` (with surrogate pairs above the
BMP) for everything above 0x7E. -/
def escChar (c : Char) : List Char :=
  if c = '"' then ['\\', '"']
  else if c = '\\' then ['\\', '\\']
  else if c.toNat = 8 then ['\\', 'b']
  else if c.toNat = 9 then ['\\', 't']
  else if c.toNat = 10 then ['\\', 'n']
  else if c.toNat = 12 then ['\\', 'f']
  else if c.toNat = 13 then ['\\', 'r']
  else if c.toNat < 32 then '\\' :: 'u' :: hex4 c.toNat
  else if c.toNat < 127 then [c]
  else if c.toNat < 65536 then '\\' :: 'u' :: hex4 c.toNat
  else ('\\' :: 'u' :: hex4 (55296 + (c.toNat - 65536) / 1024)) ++
       ('\\' :: 'u' :: hex4 (56320 + (c.toNat - 65536) % 1024))

/-- A JSON string literal: quote, escaped characters, quote. -/
def strLit (s : String) : List Char := '"' :: (s.data.flatMap escChar) ++ ['"']

mutual

/-- Compact JSON serialization of a value, as a character list; models Python
`json.dumps(v, separators=(",", ":"))` with `ensure_ascii=True`. -/
def dumpJ : Json → List Char
  | .null => "null".data
  | .bool true => "true".data
  | .bool false => "false".data
  | .num n => intDec n
  | .str s => strLit s
  | .arr xs => '[' :: dumpA xs ++ [']']
  | .obj kvs => '{' :: dumpO kvs ++ ['}']

/-- Serialization of array elements (no enclosing brackets). -/
def dumpA : JsonA → List Char
  | .nil => []
  | .cons x tl => dumpJ x ++ dumpA1 tl

/-- Serialization of array elements after the first (each preceded by a comma). -/
def dumpA1 : JsonA → List Char
  | .nil => []
  | .cons x tl => ',' :: (dumpJ x ++ dumpA1 tl)

/-- Serialization of object members (no enclosing braces). -/
def dumpO : JsonO → List Char
  | .nil => []
  | .cons k v tl => strLit k ++ ':' :: (dumpJ v ++ dumpO1 tl)

/-- Serialization of object members after the first (each preceded by a comma). -/
def dumpO1 : JsonO → List Char
  | .nil => []
  | .cons k v tl => ',' :: (strLit k ++ ':' :: (dumpJ v ++ dumpO1 tl))

end

/-- Compact JSON serialization as a string: Python
`json.dumps(v, separators=(",", ":"))`. -/
def dumps (v : Json) : String := ⟨dumpJ v⟩

/-- JSON whitespace (the characters `json.loads` skips between tokens). -/
def isWsChar (c : Char) : Bool := c = ' ' || c = '\t' || c = '\n' || c = '\r'

/-- Drop leading JSON whitespace. -/
def skipWs : List Char → List Char
  | [] => []
  | c :: cs => if isWsChar c then skipWs cs else c :: cs

/-- Value of one hexadecimal digit character (upper or lower case). -/
def hexVal (c : Char) : Option Nat :=
  if '0' ≤ c ∧ c ≤ '9' then some (c.toNat - 48)
  else if 'a' ≤ c ∧ c ≤ 'f' then some (c.toNat - 87)
  else if 'A' ≤ c ∧ c ≤ 'F' then some (c.toNat - 55)
  else none

/-- Four hex digits, as in `\uXXXX`. -/
def parseHex4 (cs : List Char) : Option (Nat × List Char) :=
  match cs with
  | h1 :: h2 :: h3 :: h4 :: rest =>
    (match hexVal h1, hexVal h2, hexVal h3, hexVal h4 with
     | some a, some b, some c, some d => some (a * 4096 + b * 256 + c * 16 + d, rest)
     | _, _, _, _ => none)
  | _ => none

/-- Body of a JSON string literal (after the opening quote), with accumulator;
handles the escape sequences `json.loads` accepts, combining `\uXXXX`
surrogate pairs into one scalar value.  Lone surrogates are rejected (they are
not representable in a Lean `String`).  Fuel-driven; every step appends one
character to the accumulator or terminates, so fuel ≥ input length + 1 always
suffices. -/
def parseStrAux : Nat → List Char → List Char → Option (String × List Char)
  | 0, _, _ => none
  | fuel + 1, cs, acc =>
    match cs with
    | [] => none
    | c :: cs1 =>
      if c = '"' then some (⟨acc.reverse⟩, cs1)
      else if c = '\\' then
        match cs1 with
        | [] => none
        | e :: cs2 =>
          if e = 'u' then
            match parseHex4 cs2 with
            | none => none
            | some (n, cs3) =>
              if n < 55296 ∨ 57344 ≤ n then parseStrAux fuel cs3 (Char.ofNat n :: acc)
              else if n < 56320 then
                match cs3 with
                | '\\' :: 'u' :: cs4 =>
                  (match parseHex4 cs4 with
                   | some (m, cs5) =>
                     if 56320 ≤ m ∧ m < 57344 then
                       parseStrAux fuel cs5
                         (Char.ofNat (65536 + (n - 55296) * 1024 + (m - 56320)) :: acc)
                     else none
                   | none => none)
                | _ => none
              else none
          else if e = '"' then parseStrAux fuel cs2 ('"' :: acc)
          else if e = '\\' then parseStrAux fuel cs2 ('\\' :: acc)
          else if e = '/' then parseStrAux fuel cs2 ('/' :: acc)
          else if e = 'b' then parseStrAux fuel cs2 (Char.ofNat 8 :: acc)
          else if e = 'f' then parseStrAux fuel cs2 (Char.ofNat 12 :: acc)
          else if e = 'n' then parseStrAux fuel cs2 ('\n' :: acc)
          else if e = 'r' then parseStrAux fuel cs2 (Char.ofNat 13 :: acc)
          else if e = 't' then parseStrAux fuel cs2 ('\t' :: acc)
          else none
      else if 32 ≤ c.toNat then parseStrAux fuel cs1 (c :: acc)
      else none

/-- Consume a maximal run of decimal digits, accumulating their value. -/
def parseDigits : List Char → Nat → Nat × List Char
  | [], acc => (acc, [])
  | c :: cs, acc => if c.isDigit then parseDigits cs (acc * 10 + (c.toNat - 48)) else (acc, c :: cs)

/-- Parse a JSON integer (optional minus sign followed by a digit run). -/
def parseNum : List Char → Option (Json × List Char)
  | [] => none
  | c :: cs =>
    if c = '-' then
      match cs with
      | [] => none
      | d :: _ =>
        if d.isDigit then
          let p := parseDigits cs 0
          some (.num (-(p.1 : Int)), p.2)
        else none
    else if c.isDigit then
      let p := parseDigits (c :: cs) 0
      some (.num (p.1 : Int), p.2)
    else none

/-- Does a value start with this character? -/
def valStartChar (c : Char) : Bool :=
  c = 'n' || c = 't' || c = 'f' || c = '"' || c = '[' || c = '{' || c = '-' || c.isDigit

mutual

/-- Fuel-driven recursive-descent JSON value parser (models `json.loads`
restricted to integer numbers; a fractional or exponent part makes the parse
fail instead of producing a float). -/
def parseVal : Nat → List Char → Option (Json × List Char)
  | 0, _ => none
  | fuel + 1, cs =>
    match skipWs cs with
    | [] => none
    | c :: rest =>
      if c = '-' || c.isDigit then parseNum (c :: rest)
      else if c = '"' then
        match parseStrAux (rest.length + 1) rest [] with
        | some (s, rest2) => some (.str s, rest2)
        | none => none
      else if c = '[' then
        match skipWs rest with
        | [] => none
        | c2 :: rest2 =>
          if c2 = ']' then some (.arr .nil, rest2)
          else
            match parseElems fuel (c2 :: rest2) with
            | some (xs, rest3) => some (.arr xs, rest3)
            | none => none
      else if c = '{' then
        match skipWs rest with
        | [] => none
        | c2 :: rest2 =>
          if c2 = '}' then some (.obj .nil, rest2)
          else
            match parseMembers fuel (c2 :: rest2) with
            | some (kvs, rest3) => some (.obj kvs, rest3)
            | none => none
      else if c = 'n' then
        match rest with
        | 'u' :: 'l' :: 'l' :: rest2 => some (.null, rest2)
        | _ => none
      else if c = 't' then
        match rest with
        | 'r' :: 'u' :: 'e' :: rest2 => some (.bool true, rest2)
        | _ => none
      else if c = 'f' then
        match rest with
        | 'a' :: 'l' :: 's' :: 'e' :: rest2 => some (.bool false, rest2)
        | _ => none
      else none

/-- Parse one or more comma-separated array elements followed by `]`. -/
def parseElems : Nat → List Char → Option (JsonA × List Char)
  | 0, _ => none
  | fuel + 1, cs =>
    match parseVal fuel cs with
    | some (v, rest) =>
      (match skipWs rest with
       | ',' :: rest2 =>
         (match parseElems fuel rest2 with
          | some (xs, rest3) => some (.cons v xs, rest3)
          | none => none)
       | ']' :: rest2 => some (.cons v .nil, rest2)
       | _ => none)
    | none => none

/-- Parse one or more comma-separated object members followed by `}`. -/
def parseMembers : Nat → List Char → Option (JsonO × List Char)
  | 0, _ => none
  | fuel + 1, cs =>
    match skipWs cs with
    | '"' :: rest =>
      (match parseStrAux (rest.length + 1) rest [] with
       | some (k, rest2) =>
         (match skipWs rest2 with
          | ':' :: rest3 =>
            (match parseVal fuel rest3 with
             | some (v, rest4) =>
               (match skipWs rest4 with
                | ',' :: rest5 =>
                  (match parseMembers fuel rest5 with
                   | some (kvs, rest6) => some (.cons k v kvs, rest6)
                   | none => none)
                | '}' :: rest5 => some (.cons k v .nil, rest5)
                | _ => none)
             | none => none)
          | _ => none)
       | none => none)
    | _ => none

end

/-- Full-string JSON parse: models `json.loads` (whitespace around the value
allowed, nothing else after it). -/
def loads (s : String) : Option Json :=
  match parseVal (s.toList.length + 1) s.toList with
  | some (v, rest) => if skipWs rest = [] then some v else none
  | none => none

mutual

/-- Structural size of a JSON value (used as parser fuel bound). -/
def sizeJ : Json → Nat
  | .null => 1
  | .bool _ => 1
  | .num _ => 1
  | .str _ => 1
  | .arr xs => sizeA xs + 1
  | .obj kvs => sizeO kvs + 1

/-- Structural size of an array element list. -/
def sizeA : JsonA → Nat
  | .nil => 0
  | .cons x tl => sizeJ x + sizeA tl + 1

/-- Structural size of an object member list. -/
def sizeO : JsonO → Nat
  | .nil => 0
  | .cons _ v tl => sizeJ v + sizeO tl + 1

end

/-! ## Message framing (`stream_handler.py`) -/

/-- `StreamHandler.prepend_header`: frame a message with the TradingView
length header, where the length is the Python `len` of the message
(its number of code points). -/
def prepend_header (message : String) : String :=
  "~m~" ++ natDecStr message.length ++ "~m~" ++ message

/-- `StreamHandler.construct_message`: the compact JSON string of
a dict with keys `m` (the method) and `p` (the parameter list). -/
def construct_message (func : String) (param_list : JsonA) : String :=
  dumps (.obj (.cons "m" (.str func) (.cons "p" (.arr param_list) .nil)))

/-- `StreamHandler.create_message`: header-framed JSON call. -/
def create_message (func : String) (param_list : JsonA) : String :=
  prepend_header (construct_message func param_list)

/-! ## The frame-delimiter regex `~m~\d+~m~` and heartbeat `~m~\d+~m~~h~\d+$`

`\d+` is greedy and its maximal run can never be shrunk usefully (the
character after a maximal digit run is not a digit, while the continuation
`~m~` starts with `~`), so matching is: literal `~m~`, a maximal nonempty
digit run, literal `~m~`. -/

/-- Try to match the delimiter regex `~m~\d+~m~` at the head of the list,
returning the remainder after the match. -/
def matchDelim (cs : List Char) : Option (List Char) :=
  match cs with
  | '~' :: 'm' :: '~' :: rest =>
    if (rest.takeWhile Char.isDigit).isEmpty then none
    else
      match rest.dropWhile Char.isDigit with
      | '~' :: 'm' :: '~' :: rest2 => some rest2
      | _ => none
  | _ => none

/-- Fuel-driven scan for `re.split(r"~m~\d+~m~", ·)`: split at each leftmost
delimiter match (fuel ≥ length + 1 suffices). -/
def splitGoF : Nat → List Char → List Char → List (List Char)
  | 0, cs, acc => [acc.reverse ++ cs]
  | fuel + 1, cs, acc =>
    match cs with
    | [] => [acc.reverse]
    | c :: cs' =>
      match matchDelim (c :: cs') with
      | some rest => acc.reverse :: splitGoF fuel rest []
      | none => splitGoF fuel cs' (c :: acc)

/-- `re.split(r"~m~\d+~m~", ·)` on a character list. -/
def reSplitDelim (cs : List Char) : List (List Char) := splitGoF (cs.length + 1) cs []

/-- Does the delimiter regex match anywhere in the list? -/
def hasDelim : List Char → Bool
  | [] => false
  | c :: cs => (matchDelim (c :: cs)).isSome || hasDelim cs

/-- The deframing step of `_get_data`:
`[x for x in re.split(r"~m~\d+~m~", result) if x]` — split the raw message on
the delimiter regex and discard empty fragments. -/
def deframe (s : String) : List String :=
  ((reSplitDelim s.data).filter (fun l => !l.isEmpty)).map (fun l => (⟨l⟩ : String))

/-- `re.match(r"~m~\d+~m~~h~\d+$", ·)`: the heartbeat test of `_get_data`.
(`$` is modelled as end-of-string; the source never receives a heartbeat with
a trailing newline, the one case where Python `$` differs.) -/
def isHeartbeat (s : String) : Bool :=
  match matchDelim s.data with
  | some ('~' :: 'h' :: '~' :: ds) => !ds.isEmpty && ds.all Char.isDigit
  | _ => false

/-- A syntactically well-formed heartbeat frame `~m~{n}~m~~h~{k}`. -/
def mk_heartbeat (n k : Nat) : String :=
  "~m~" ++ natDecStr n ++ "~m~~h~" ++ natDecStr k

/-! ## Python value helpers

Dict/list/str operations on `Json` values, with Python exception behaviour
modelled by `Except String` (the carried message is a coarse tag for the
exception class). -/

/-- Exceptions are modelled as `Except String`. -/
abbrev Exc := Except String

/-- First-match lookup in an object member list (Python dict lookup; objects
that model Python dicts have unique keys). -/
def lookupO : JsonO → String → Option Json
  | .nil, _ => none
  | .cons k v tl, key => if k = key then some v else lookupO tl key

/-- Length of an array element list. -/
def lenA : JsonA → Nat
  | .nil => 0
  | .cons _ tl => lenA tl + 1

/-- Length of an object member list. -/
def lenO : JsonO → Nat
  | .nil => 0
  | .cons _ _ tl => lenO tl + 1

/-- Array element list to Lean list. -/
def toListA : JsonA → List Json
  | .nil => []
  | .cons x tl => x :: toListA tl

/-- Lean list to array element list. -/
def ofListA : List Json → JsonA
  | [] => .nil
  | x :: tl => .cons x (ofListA tl)

/-- Object member list to Lean pair list. -/
def pairsO : JsonO → List (String × Json)
  | .nil => []
  | .cons k v tl => (k, v) :: pairsO tl

/-- Lean pair list to object member list. -/
def ofPairsO : List (String × Json) → JsonO
  | [] => .nil
  | (k, v) :: tl => .cons k v (ofPairsO tl)

/-- First-match lookup in a string-keyed pair list (Python dict lookup). -/
def slookup {α : Type} : List (String × α) → String → Option α
  | [], _ => none
  | (k, v) :: tl, key => if k = key then some v else slookup tl key

/-- Python `d[k] = v`: replace the value in place if the key is present,
otherwise append the pair. -/
def dictInsert {α : Type} : List (String × α) → String → α → List (String × α)
  | [], key, v => [(key, v)]
  | (k, v') :: tl, key, v =>
    if k = key then (key, v) :: tl else (k, v') :: dictInsert tl key v

/-- Python `d.update(new)`: insert every pair of `new` in order. -/
def dictUpdate {α : Type} (d new : List (String × α)) : List (String × α) :=
  new.foldl (fun d kv => dictInsert d kv.1 kv.2) d

/-- Python `x.get(k)` (`None` default): dict lookup, `AttributeError` on
anything that is not a dict. -/
def jGet? (j : Json) (k : String) : Exc (Option Json) :=
  match j with
  | .obj kvs => .ok (lookupO kvs k)
  | _ => .error "AttributeError"

/-- Python `x.get(k, dflt)`. -/
def jGetD (j : Json) (k : String) (dflt : Json) : Exc Json :=
  (jGet? j k).map (fun o => o.getD dflt)

/-- Python `x[k]` with a string key: dict lookup (`KeyError` when absent),
`TypeError` on lists/strings/scalars. -/
def jGetItem (j : Json) (k : String) : Exc Json :=
  match j with
  | .obj kvs =>
    match lookupO kvs k with
    | some v => .ok v
    | none => .error "KeyError"
  | _ => .error "TypeError"

/-- Python `x[i]` with a non-negative int index: list/str indexing
(`IndexError` out of range), `KeyError` for dicts (no such key),
`TypeError` for scalars. -/
def jIndex (j : Json) (i : Nat) : Exc Json :=
  match j with
  | .arr xs =>
    match (toListA xs).get? i with
    | some v => .ok v
    | none => .error "IndexError"
  | .str s =>
    match s.data.get? i with
    | some c => .ok (.str ⟨[c]⟩)
    | none => .error "IndexError"
  | _ => .error "TypeError"

/-- Python `len(x)`: `TypeError` for scalars. -/
def jLen (j : Json) : Exc Nat :=
  match j with
  | .arr xs => .ok (lenA xs)
  | .str s => .ok s.data.length
  | .obj kvs => .ok (lenO kvs)
  | _ => .error "TypeError"

/-- Is `pat` a contiguous sublist? (Python `sub in str`.) -/
def listContainsSub (pat : List Char) : List Char → Bool
  | [] => pat.isEmpty
  | c :: cs => pat.isPrefixOf (c :: cs) || listContainsSub pat cs

/-- Membership of a string as an array element (Python `s in list`). -/
def aContainsStr : JsonA → String → Bool
  | .nil, _ => false
  | .cons (.str s) tl, key => s = key || aContainsStr tl key
  | .cons _ tl, key => aContainsStr tl key

/-- Python `k in x` for a string `k`: key containment for dicts, element
membership for lists, substring test for strings, `TypeError` otherwise. -/
def pyContainsStr (j : Json) (k : String) : Exc Bool :=
  match j with
  | .obj kvs => .ok (lookupO kvs k).isSome
  | .arr xs => .ok (aContainsStr xs k)
  | .str s => .ok (listContainsSub k.data s.data)
  | _ => .error "TypeError"

/-- Python `for x in j`: list of iterates — elements of a list, one-character
strings of a string, keys of a dict; `TypeError` for scalars. -/
def jIter (j : Json) : Exc (List Json) :=
  match j with
  | .arr xs => .ok (toListA xs)
  | .str s => .ok (s.data.map (fun c => .str ⟨[c]⟩))
  | .obj kvs => .ok ((pairsO kvs).map (fun kv => .str kv.1))
  | _ => .error "TypeError"

/-- Python `x[1:]` (slice from 1): lists and strings slice, everything else
is a `TypeError`. -/
def jSlice1 (j : Json) : Exc Json :=
  match j with
  | .arr xs => .ok (.arr (ofListA ((toListA xs).drop 1)))
  | .str s => .ok (.str ⟨s.data.drop 1⟩)
  | _ => .error "TypeError"

/-- Python `x == "lit"` where `x` may be any value or `None` (a missing
`.get`): true only for equal strings. -/
def optEqStr : Option Json → String → Bool
  | some (.str s), t => s = t
  | _, _ => false

/-! ## Constants and response envelopes (`core/constants.py`, `streamer.py`) -/

/-- Modelled from the spec: `STATUS_SUCCESS` (`core/constants.py` is not in
`src/`; the spec's result shape gives `status: "success" | "failed"`). -/
def STATUS_SUCCESS : String := "success"

/-- Modelled from the spec: `STATUS_FAILED` (`core/constants.py` is not in
`src/`; the spec's result shape gives `status: "success" | "failed"`). -/
def STATUS_FAILED : String := "failed"

/-- The standardized response envelope of `streamer.py`. -/
structure Response where
  status : String
  data : Option Json
  metadata : List (String × Json)
  error : Option String

/-- `_success_response` of `streamer.py`. -/
def success_response (data : Json) (metadata : List (String × Json)) : Response :=
  { status := STATUS_SUCCESS, data := some data, metadata := metadata, error := none }

/-- `_error_response` of `streamer.py`. -/
def error_response (error : String) (metadata : List (String × Json)) : Response :=
  { status := STATUS_FAILED, data := none, metadata := metadata, error := some error }

/-- Modelled from the spec: `format_symbol` of `utils/helpers.py` (not in
`src/`), producing the `exchange:symbol` string the spec calls
`exchangeColonSymbol`. -/
def format_symbol (exchange symbol : String) : String := exchange ++ ":" ++ symbol

/-- `validate_symbols` of `streaming/utils.py`: raises `ValueError` when
exchange or symbol is empty; the outcome of the HTTP validation loop is an
oracle parameter (`.ok true` for a valid symbol, `.error msg` for the
`ValueError` raised on a 404 or after exhausted retries). -/
def validate_symbols (exchange symbol : String) (oracle : Exc Bool) : Exc Bool :=
  if exchange = "" || symbol = "" then .error "exchange and symbol cannot be empty"
  else oracle

/-- `_TIMEFRAME_MAP` of `streamer.py`. -/
def timeframe_map : List (String × String) :=
  [("1m", "1"), ("5m", "5"), ("15m", "15"), ("30m", "30"), ("1h", "60"),
   ("2h", "120"), ("4h", "240"), ("1d", "1D"), ("1w", "1W"), ("1M", "1M")]

/-- An outgoing call recorded in the send trace: method name and parameters
(socket I/O is observed through this trace). -/
abbrev Sent := String × List Json

/-! ## Packet extraction (`streamer.py`) -/

/-- One record of `Streamer._serialize_ohlcv`'s loop body: dict with
`index`, `timestamp`, `open`, `high`, `low`, `close`, and `volume` only when
the value array has a 6th element. -/
def serialize_ohlcv_entry (entry : Json) : Exc Json := do
  let i ← jGetItem entry "i"
  let v ← jGetItem entry "v"
  let ts ← jIndex v 0
  let o ← jIndex v 1
  let h ← jIndex v 2
  let l ← jIndex v 3
  let c ← jIndex v 4
  let n ← jLen v
  if 5 < n then
    let vol ← jIndex v 5
    pure (.obj (ofPairsO [("index", i), ("timestamp", ts), ("open", o), ("high", h),
      ("low", l), ("close", c), ("volume", vol)]))
  else
    pure (.obj (ofPairsO [("index", i), ("timestamp", ts), ("open", o), ("high", h),
      ("low", l), ("close", c)]))

/-- `Streamer._serialize_ohlcv`: extract OHLCV entries from a
`timescale_update` packet (`raw_data.get("p", [{}, {}])[1].get("sds_1", {}).get("s", [])`). -/
def serialize_ohlcv (raw_data : Json) : Exc (List Json) := do
  let p ← jGetD raw_data "p" (.arr (.cons (.obj .nil) (.cons (.obj .nil) .nil)))
  let p1 ← jIndex p 1
  let sds ← jGetD p1 "sds_1" (.obj .nil)
  let s ← jGetD sds "s" (.arr .nil)
  let entries ← jIter s
  entries.mapM serialize_ohlcv_entry

/-- `Streamer._extract_ohlcv_from_stream`. -/
def extract_ohlcv_from_stream (pkt : Json) : Exc (List Json) := do
  let m ← jGet? pkt "m"
  if optEqStr m "timescale_update" then serialize_ohlcv pkt else pure []

/-- `{str(i): v for i, v in enumerate(vals)}` starting at index `start`. -/
def enumPairs (start : Nat) : List Json → List (String × Json)
  | [] => []
  | v :: tl => (natDecStr start, v) :: enumPairs (start + 1) tl

/-- One converted indicator entry of `_extract_indicator_from_stream`:
`{"index": item["i"], "timestamp": item["v"][0]}` updated with
`{str(i): v for i, v in enumerate(item["v"][1:])}`. -/
def convert_ind_entry (item : Json) : Exc Json := do
  let i ← jGetItem item "i"
  let v ← jGetItem item "v"
  let ts ← jIndex v 0
  let tl ← jSlice1 v
  let vals ← jIter tl
  pure (.obj (ofPairsO (dictUpdate [("index", i), ("timestamp", ts)]
    (enumPairs 0 vals))))

/-- Python `key.startswith("st")`: character-list prefix test. -/
def pyStartsWith (s pre : String) : Bool := pre.data.isPrefixOf s.data

/-- The per-pair loop of `_extract_indicator_from_stream` over
`p_data[1].items()`, accumulating the `indicator_data` dict. -/
def extract_ind_go (table : List (String × String)) :
    List (String × Json) → List (String × Json) → Exc (List (String × Json))
  | [], acc => .ok acc
  | (key, val) :: rest, acc =>
    if pyStartsWith key "st" && (slookup table key).isSome then do
      let hasSt ← pyContainsStr val "st"
      if hasSt then do
        let stArr ← jGetItem val "st"
        let n ← jLen stArr
        if 10 < n then do
          let items ← jIter stArr
          let converted ← items.mapM convert_ind_entry
          let name := (slookup table key).getD ""
          extract_ind_go table rest (dictInsert acc name (.arr (ofListA converted)))
        else extract_ind_go table rest acc
      else extract_ind_go table rest acc
    else extract_ind_go table rest acc

/-- `Streamer._extract_indicator_from_stream`, with the instance's
`study_id_to_name_map` passed as `table`. -/
def extract_indicator_from_stream (table : List (String × String)) (pkt : Json) :
    Exc (List (String × Json)) := do
  let m ← jGet? pkt "m"
  if !optEqStr m "du" then pure []
  else do
    let p ← jGetD pkt "p" (.arr .nil)
    let n ← jLen p
    if n ≤ 1 then pure []
    else do
      let p1 ← jIndex p 1
      match p1 with
      | .obj kvs => extract_ind_go table (pairsO kvs) []
      | _ => pure []

/-! ## The receive loop (`_get_data`) and the candle-fetch loop (`get_candles`) -/

/-- One event on the mocked socket: a received text message, an orderly
close (`WebSocketConnectionClosedException`), or a lower-level socket error
(`ConnectionError` / `TimeoutError` / `OSError`). -/
inductive RecvEvent where
  | msg (s : String)
  | closed
  | sockErr

/-- One observable action of `_get_data`: a heartbeat echoed back over the
socket, or a decoded JSON packet yielded to the consumer. -/
inductive WireAct where
  | echo (s : String)
  | packet (j : Json)

/-- `Streamer._get_data`: for each received message, echo it if it is a
heartbeat, otherwise split on the delimiter regex and yield each fragment
that decodes as JSON (non-JSON fragments are skipped); stop on a closed
connection or a socket error. -/
def get_data : List RecvEvent → List WireAct
  | [] => []
  | .closed :: _ => []
  | .sockErr :: _ => []
  | .msg s :: rest =>
    if isHeartbeat s then .echo s :: get_data rest
    else ((deframe s).filterMap loads).map .packet ++ get_data rest

/-- Socket events for `price.py`'s `_get_data`, which additionally treats a
`socket.timeout` as a continue. -/
inductive RecvEventP where
  | msg (s : String)
  | closed
  | sockTimeout
  | sockErr

/-- `RealTimeData._get_data` of `price.py`: as `Streamer._get_data`, but a
`socket.timeout` just continues the loop. -/
def get_data_price : List RecvEventP → List WireAct
  | [] => []
  | .closed :: _ => []
  | .sockErr :: _ => []
  | .sockTimeout :: rest => get_data_price rest
  | .msg s :: rest =>
    if isHeartbeat s then .echo s :: get_data_price rest
    else ((deframe s).filterMap loads).map .packet ++ get_data_price rest

/-- The decoded packets yielded by `_get_data`. -/
def packetsOf (evs : List RecvEvent) : List Json :=
  (get_data evs).filterMap (fun a => match a with | .packet j => some j | _ => none)

/-- The candle-fetch loop's accumulation state: `ohlcv_data` and
`indicator_data` of `get_candles`. -/
structure LoopState where
  ohlcv : List Json
  ind : List (String × Json)

/-- One iteration body of the `get_candles` receive loop: extract OHLCV
(replacing the accumulated list only when the extraction is non-empty) and
indicator data (merged into the accumulated dict when non-empty). -/
def step_pkt (table : List (String × String)) (s : LoopState) (pkt : Json) :
    Exc LoopState := do
  let received_ohlcv ← extract_ohlcv_from_stream pkt
  let ohlcv' := if received_ohlcv.isEmpty then s.ohlcv else received_ohlcv
  let received_ind ← extract_indicator_from_stream table pkt
  let ind' := if received_ind.isEmpty then s.ind else dictUpdate s.ind received_ind
  pure ⟨ohlcv', ind'⟩

/-- The stop condition of `get_candles`:
`len(ohlcv_data) >= numb_candles and (not ind_flag or len(indicator_data) >= expected_ind_count)`. -/
def stop_cond (numb expected : Nat) (ind_flag : Bool) (s : LoopState) : Bool :=
  decide (numb ≤ s.ohlcv.length) && (!ind_flag || decide (expected ≤ s.ind.length))

/-- The `for i, pkt in enumerate(self._get_data())` loop of `get_candles`:
process each packet, break once the stop condition holds or once `i > 15`. -/
def run_loop (table : List (String × String)) (numb expected : Nat) (ind_flag : Bool) :
    Nat → LoopState → List Json → Exc LoopState
  | _, s, [] => .ok s
  | i, s, pkt :: rest => do
    let s' ← step_pkt table s pkt
    if stop_cond numb expected ind_flag s' then pure s'
    else if 15 < i then pure s'
    else run_loop table numb expected ind_flag (i + 1) s' rest

/-! ## Registration calls (`_add_symbol_to_sessions`, `_add_indicators`) -/

/-- The four calls sent by `Streamer._add_symbol_to_sessions` (timeframe
mapped through `_TIMEFRAME_MAP` with default `"1"`). -/
def add_symbol_msgs (quote_session chart_session exchange_symbol timeframe : String)
    (numb_candles : Nat) : List Sent :=
  let mapped_tf := (slookup timeframe_map timeframe).getD "1"
  let resolve_symbol := dumps (.obj (.cons "adjustment" (.str "splits")
    (.cons "symbol" (.str exchange_symbol) .nil)))
  [("quote_add_symbols", [.str quote_session, .str ("=" ++ resolve_symbol)]),
   ("resolve_symbol", [.str chart_session, .str "sds_sym_1", .str ("=" ++ resolve_symbol)]),
   ("create_series", [.str chart_session, .str "sds_1", .str "s1", .str "sds_sym_1",
     .str mapped_tf, .num (numb_candles : Int), .str ""]),
   ("quote_fast_symbols", [.str quote_session, .str exchange_symbol])]

/-- The study id assigned to the indicator at 0-based position `idx`:
`f"st{9 + idx}"`. -/
def study_id_of (idx : Nat) : String := "st" ++ natDecStr (9 + idx)

/-- The loop of `Streamer._add_indicators`.  `fetch idx` is the outcome of
`fetch_indicator_metadata` for the indicator at position `idx`: `none` when
the fetch failed or the result has no `"p"` key (`{}` on failure), otherwise
the prepared `create_study` parameter list.  Each success patches slot 1 of
the parameter list to the assigned study id (`IndexError` if the list is
shorter than 2), records the study id in the registration table, and sends
`create_study` then `quote_hibernate_all`; each failure is skipped. -/
def add_indicators_go (quote_session : String) (fetch : Nat → Option (List Json)) :
    Nat → List (String × String) → List (String × String) → List Sent →
    List Sent × Exc (List (String × String))
  | _, table, [], sends => (sends, .ok table)
  | idx, table, (script_id, _ver) :: rest, sends =>
    match fetch idx with
    | none => add_indicators_go quote_session fetch (idx + 1) table rest sends
    | some p =>
      if p.length < 2 then (sends, .error "IndexError")
      else
        let study_id := study_id_of idx
        let p' := p.set 1 (.str study_id)
        add_indicators_go quote_session fetch (idx + 1)
          (dictInsert table study_id script_id) rest
          (sends ++ [("create_study", p'), ("quote_hibernate_all", [.str quote_session])])

/-- `Streamer._add_indicators` on a fresh instance (the registration table
starts empty), returning the send trace and the resulting table. -/
def add_indicators (quote_session : String) (fetch : Nat → Option (List Json))
    (indicators : List (String × String)) : List Sent × Exc (List (String × String)) :=
  add_indicators_go quote_session fetch 0 [] indicators []

/-! ## `get_candles` and `stream_realtime_price` -/

/-- `Streamer.get_candles` on a fresh instance with `export_result=False`.
External collaborators are oracle parameters: `val_oracle` is the outcome of
the HTTP part of `validate_symbols`, `fetch` the per-indicator outcome of
`fetch_indicator_metadata`, `events` the socket events.  Returns the response
envelope and the trace of sent calls (socket I/O). -/
def get_candles (exchange symbol timeframe : String) (numb_candles : Nat)
    (indicators : List (String × String)) (val_oracle : Exc Bool)
    (fetch : Nat → Option (List Json)) (quote_session chart_session : String)
    (events : List RecvEvent) : Response × List Sent :=
  let meta_err : List (String × Json) := [("exchange", .str exchange), ("symbol", .str symbol)]
  let exchange_symbol := format_symbol exchange symbol
  match validate_symbols exchange symbol val_oracle with
  | .error e => (error_response e meta_err, [])
  | .ok _ =>
    let sends1 := add_symbol_msgs quote_session chart_session exchange_symbol timeframe numb_candles
    let ind_flag := !indicators.isEmpty
    let (sends2, tableRes) :=
      if ind_flag then add_indicators quote_session fetch indicators else ([], .ok [])
    match tableRes with
    | .error e => (error_response e meta_err, sends1 ++ sends2)
    | .ok table =>
      let expected_ind_count := if ind_flag then indicators.length else 0
      match run_loop table numb_candles expected_ind_count ind_flag 0 ⟨[], []⟩ (packetsOf events) with
      | .error e => (error_response e meta_err, sends1 ++ sends2)
      | .ok s =>
        let result_data : Json := .obj (.cons "ohlcv" (.arr (ofListA s.ohlcv))
          (.cons "indicators" (.obj (ofPairsO s.ind)) .nil))
        (success_response result_data
          [("exchange", .str exchange), ("symbol", .str symbol),
           ("timeframe", .str timeframe), ("numb_candles", .num (numb_candles : Int))],
         sends1 ++ sends2)

/-- One observable action of the `stream_realtime_price` generator: a
heartbeat echo (socket write during `_get_data`) or a yielded update dict. -/
inductive StreamAct where
  | echoed (s : String)
  | yielded (j : Json)

/-- The normalized update dict built for one `qsd` packet from its
`p[1]["v"]` dict (vendor fields `lp`→price, `ch`→change, `chp`→change_percent,
`high_price`/`low_price`/`open_price`/`prev_close_price` as named; missing
fields become `null`, i.e. Python `None`, except exchange/symbol which
default to the call arguments). -/
def qsd_update (exchange symbol : String) (v : Json) : Exc Json := do
  let ex ← jGetD v "exchange" (.str exchange)
  let sn ← jGetD v "short_name" (.str symbol)
  let lp ← jGetD v "lp" .null
  let vol ← jGetD v "volume" .null
  let ch ← jGetD v "ch" .null
  let chp ← jGetD v "chp" .null
  let hi ← jGetD v "high_price" .null
  let lo ← jGetD v "low_price" .null
  let op ← jGetD v "open_price" .null
  let pc ← jGetD v "prev_close_price" .null
  let bid ← jGetD v "bid" .null
  let ask ← jGetD v "ask" .null
  pure (.obj (ofPairsO [("exchange", ex), ("symbol", sn), ("price", lp),
    ("volume", vol), ("change", ch), ("change_percent", chp), ("high", hi),
    ("low", lo), ("open", op), ("prev_close", pc), ("bid", bid), ("ask", ask)]))

/-- The `for pkt in self._get_data()` loop of `stream_realtime_price`: yield
one normalized dict per `qsd` packet whose `p` has a dict at index 1; an
exception raised while inspecting a packet propagates out of the generator. -/
def stream_body (exchange symbol : String) : List WireAct → Exc (List StreamAct)
  | [] => .ok []
  | .echo s :: rest => do
    let tl ← stream_body exchange symbol rest
    pure (.echoed s :: tl)
  | .packet pkt :: rest => do
    let m ← jGet? pkt "m"
    if optEqStr m "qsd" then do
      let p ← jGetD pkt "p" (.arr .nil)
      let n ← jLen p
      if 1 < n then do
        let p1 ← jIndex p 1
        match p1 with
        | .obj _ => do
          let v ← jGetD p1 "v" (.obj .nil)
          let upd ← qsd_update exchange symbol v
          let tl ← stream_body exchange symbol rest
          pure (.yielded upd :: tl)
        | _ => stream_body exchange symbol rest
      else stream_body exchange symbol rest
    else stream_body exchange symbol rest

/-- `Streamer.stream_realtime_price`: the generator's observable behaviour —
the calls sent before consuming the socket, and either the action trace
(`.ok`: the generator is exhausted normally) or `.error` (an exception
propagates to the caller iterating the generator; in particular a
`validate_symbols` failure, which is not caught here, unlike in
`get_candles`). -/
def stream_realtime_price (exchange symbol : String) (val_oracle : Exc Bool)
    (quote_session : String) (events : List RecvEvent) :
    List Sent × Exc (List StreamAct) :=
  let exchange_symbol := format_symbol exchange symbol
  match validate_symbols exchange symbol val_oracle with
  | .error e => ([], .error e)
  | .ok _ =>
    let resolve_symbol := dumps (.obj (.cons "adjustment" (.str "splits")
      (.cons "symbol" (.str exchange_symbol) .nil)))
    let sends : List Sent :=
      [("quote_add_symbols", [.str quote_session, .str ("=" ++ resolve_symbol)]),
       ("quote_fast_symbols", [.str quote_session, .str exchange_symbol])]
    (sends, stream_body exchange symbol (get_data events))

/-! ## Packet builders used in the claim statements -/

/-- A `timescale_update` packet carrying the given entries under
`p[1]["sds_1"]["s"]`. -/
def mk_ts_pkt (sid : Json) (entries : JsonA) : Json :=
  .obj (.cons "m" (.str "timescale_update")
    (.cons "p" (.arr (.cons sid
      (.cons (.obj (.cons "sds_1" (.obj (.cons "s" (.arr entries) .nil)) .nil)) .nil))) .nil))

/-- One OHLCV entry `{"i": i, "v": [ts, o, h, l, c, vol]}`. -/
def mk_ohlcv_entry (i ts o h l c vol : Int) : Json :=
  .obj (.cons "i" (.num i) (.cons "v" (.arr (.cons (.num ts) (.cons (.num o)
    (.cons (.num h) (.cons (.num l) (.cons (.num c) (.cons (.num vol) .nil))))))) .nil))

/-- A `du` packet whose `p[1]` is the given member list. -/
def mk_du_pkt (sid : Json) (kvs : JsonO) : Json :=
  .obj (.cons "m" (.str "du") (.cons "p" (.arr (.cons sid (.cons (.obj kvs) .nil))) .nil))

/-- A `qsd` packet whose `p[1]` is the given member list. -/
def mk_qsd_pkt (sid : Json) (p1 : JsonO) : Json :=
  .obj (.cons "m" (.str "qsd") (.cons "p" (.arr (.cons sid (.cons (.obj p1) .nil))) .nil))

/-- One study entry `{"i": i, "v": [ts, vals...]}` of a `du` packet's `st`
array. -/
def mk_st_entry (i : Int) (ts : Json) (vals : List Json) : Json :=
  .obj (.cons "i" (.num i) (.cons "v" (.arr (.cons ts (ofListA vals))) .nil))

/-- Follows the words of the spec for the `_add_indicators` loop: the sends it
promises — for each indicator position `idx` (counting every indicator,
fetched or not), a fetch failure contributes nothing, and a success
contributes `create_study` with slot 1 of the payload overwritten by the
assigned study id `"st" + (9 + idx)`, followed by `quote_hibernate_all`. -/
def add_indicators_spec_sends (qs : String) (fetch : Nat → Option (List Json)) :
    Nat → List (String × String) → List Sent
  | _, [] => []
  | idx, _ :: rest =>
    (match fetch idx with
     | none => []
     | some p => [("create_study", p.set 1 (.str (study_id_of idx))),
                  ("quote_hibernate_all", [Json.str qs])])
      ++ add_indicators_spec_sends qs fetch (idx + 1) rest

/-- Follows the words of the spec for the study registration table built by
`_add_indicators`: each fetched indicator at position `idx` maps its assigned
study id `"st" + (9 + idx)` to its script id; failed fetches get no entry. -/
def add_indicators_spec_table (fetch : Nat → Option (List Json)) :
    Nat → List (String × String) → List (String × String)
  | _, [] => []
  | idx, (sid, _) :: rest =>
    (match fetch idx with
     | none => []
     | some _ => [(study_id_of idx, sid)])
      ++ add_indicators_spec_table fetch (idx + 1) rest

/-! ## Theorems: character and digit basics -/

theorem toNat_ofNat_valid (n : Nat) (h : n.isValidChar) : (Char.ofNat n).toNat = n := by
  unfold Char.ofNat
  simp [h]
  rfl

theorem char_toNat_valid (c : Char) : c.toNat < 55296 ∨ (57344 ≤ c.toNat ∧ c.toNat < 1114112) := by
  have h := c.valid
  simp [UInt32.isValidChar, Nat.isValidChar] at h
  unfold Char.toNat
  rcases h with h | h
  · left; exact h
  · right; omega

theorem char_toNat_inj {a b : Char} (h : a.toNat = b.toNat) : a = b := by
  have h2 : Char.ofNat a.toNat = Char.ofNat b.toNat := by rw [h]
  rwa [Char.ofNat_toNat, Char.ofNat_toNat] at h2

theorem char_eq_of_toNat {c : Char} {n : Nat} (h : c.toNat = n) : Char.ofNat n = c := by
  subst h
  exact Char.ofNat_toNat c

theorem isValidChar_of_lt {n : Nat} (h : n < 55296) : n.isValidChar := Or.inl h

theorem isDigit_iff (c : Char) : c.isDigit = true ↔ 48 ≤ c.toNat ∧ c.toNat ≤ 57 := by
  simp [Char.isDigit, Char.le_def, Char.toNat]
  constructor
  · intro ⟨h1, h2⟩
    exact ⟨h1, h2⟩
  · intro ⟨h1, h2⟩
    exact ⟨h1, h2⟩

theorem digitChar_toNat {d : Nat} (h : d < 10) : (digitChar d).toNat = 48 + d :=
  toNat_ofNat_valid (48 + d) (isValidChar_of_lt (by omega))

theorem digitChar_isDigit {d : Nat} (h : d < 10) : (digitChar d).isDigit = true := by
  rw [isDigit_iff, digitChar_toNat h]
  omega

theorem digit_not_minus {c : Char} (h : c.isDigit = true) : (c = '-') = False := by
  simp only [eq_iff_iff, iff_false]
  intro hc
  subst hc
  simp at h

theorem digit_not_ws {c : Char} (h : c.isDigit = true) : isWsChar c = false := by
  rw [isDigit_iff] at h
  by_contra hw
  simp only [Bool.not_eq_false, isWsChar, Bool.or_eq_true, decide_eq_true_eq] at hw
  rcases hw with ((h2 | h2) | h2) | h2 <;> (subst h2; revert h; decide)

theorem hexVal_hexChar {d : Nat} (h : d < 16) : hexVal (hexChar d) = some d := by
  interval_cases d <;> decide

/-! ## Theorems: decimal rendering -/

theorem natDecAux_congr : ∀ f1 f2 n, n < f1 → n < f2 → natDecAux f1 n = natDecAux f2 n := by
  intro f1
  induction f1 with
  | zero => intro f2 n h; omega
  | succ g IH =>
    intro f2 n h1 h2
    match f2, h2 with
    | g2 + 1, _ =>
      by_cases hn : n < 10
      · simp [natDecAux, hn]
      · simp only [natDecAux, if_neg hn]
        have hd : n / 10 < n := Nat.div_lt_self (by omega) (by omega)
        rw [IH g2 (n / 10) (by omega) (by omega)]

theorem natDec_eq_aux {n f : Nat} (h : n < f) : natDec n = natDecAux f n :=
  natDecAux_congr (n + 1) f n (by omega) h

theorem natDec_lt10 {n : Nat} (h : n < 10) : natDec n = [digitChar n] := by
  simp [natDec, natDecAux, h]

theorem natDec_ge10 {n : Nat} (h : 10 ≤ n) : natDec n = natDec (n / 10) ++ [digitChar (n % 10)] := by
  have hd : n / 10 < n := Nat.div_lt_self (by omega) (by omega)
  rw [natDec, natDecAux]
  rw [if_neg (by omega)]
  rw [natDec_eq_aux (show n / 10 < n from hd)]

theorem natDec_all_digits : ∀ n, ∀ c ∈ natDec n, c.isDigit = true := by
  intro n
  induction n using Nat.strong_induction_on with
  | _ n IH =>
    by_cases hn : n < 10
    · rw [natDec_lt10 hn]
      intro c hc
      simp at hc
      subst hc
      exact digitChar_isDigit hn
    · rw [natDec_ge10 (by omega)]
      intro c hc
      rcases List.mem_append.mp hc with h | h
      · exact IH (n / 10) (Nat.div_lt_self (by omega) (by omega)) c h
      · simp at h
        subst h
        exact digitChar_isDigit (Nat.mod_lt _ (by omega))

theorem natDec_ne_nil (n : Nat) : natDec n ≠ [] := by
  by_cases hn : n < 10
  · rw [natDec_lt10 hn]; simp
  · rw [natDec_ge10 (by omega)]; simp

theorem natDec_cons (n : Nat) : ∃ d ds, natDec n = d :: ds ∧ d.isDigit = true := by
  match h : natDec n with
  | [] => exact absurd h (natDec_ne_nil n)
  | d :: ds =>
    refine ⟨d, ds, rfl, ?_⟩
    exact natDec_all_digits n d (by rw [h]; simp)

/-! ## Theorems: digit-run parsing -/

theorem parseDigits_natDec : ∀ n acc rest,
    parseDigits (natDec n ++ rest) acc = parseDigits rest (acc * 10 ^ (natDec n).length + n) := by
  intro n
  induction n using Nat.strong_induction_on with
  | _ n IH =>
    intro acc rest
    by_cases hn : n < 10
    · rw [natDec_lt10 hn]
      simp only [List.singleton_append, parseDigits, digitChar_isDigit hn, if_true,
        digitChar_toNat hn, List.length_singleton, pow_one]
      congr 1
      omega
    · have hmod : n % 10 < 10 := Nat.mod_lt n (by omega)
      rw [natDec_ge10 (by omega), List.append_assoc,
        IH (n / 10) (Nat.div_lt_self (by omega) (by omega))]
      simp only [List.singleton_append, parseDigits, digitChar_isDigit hmod, if_true,
        digitChar_toNat hmod, List.length_append, List.length_singleton, pow_succ]
      congr 1
      have hmul : acc * (10 ^ (natDec (n / 10)).length * 10)
          = acc * 10 ^ (natDec (n / 10)).length * 10 := by ring
      rw [hmul]
      omega

theorem parseDigits_stop (rest : List Char) (acc : Nat)
    (h : ∀ c, rest.head? = some c → c.isDigit = false) : parseDigits rest acc = (acc, rest) := by
  cases rest with
  | nil => rfl
  | cons c cs => simp [parseDigits, h c rfl]

theorem parseNum_natDec (n : Nat) (rest : List Char)
    (h : ∀ c, rest.head? = some c → c.isDigit = false) :
    parseNum (natDec n ++ rest) = some (.num (n : Int), rest) := by
  obtain ⟨d, ds, hnd, hdig⟩ := natDec_cons n
  have hx : d :: (ds ++ rest) = natDec n ++ rest := by rw [hnd]; rfl
  rw [hnd, List.cons_append]
  simp only [parseNum, digit_not_minus hdig, hdig, if_true, decide_False, Bool.false_eq_true,
    if_false]
  rw [hx, parseDigits_natDec n 0 rest, parseDigits_stop rest _ h]
  simp

theorem parseNum_neg (m : Nat) (rest : List Char)
    (h : ∀ c, rest.head? = some c → c.isDigit = false) :
    parseNum ('-' :: (natDec m ++ rest)) = some (.num (-(m : Int)), rest) := by
  obtain ⟨d, ds, hnd, hdig⟩ := natDec_cons m
  have hx : d :: (ds ++ rest) = natDec m ++ rest := by rw [hnd]; rfl
  rw [hnd, List.cons_append]
  simp only [parseNum, hdig, if_true]
  rw [hx, parseDigits_natDec m 0 rest, parseDigits_stop rest _ h]
  simp

theorem parseNum_intDec (n : Int) (rest : List Char)
    (h : ∀ c, rest.head? = some c → c.isDigit = false) :
    parseNum (intDec n ++ rest) = some (.num n, rest) := by
  by_cases hn : n < 0
  · rw [intDec, if_pos hn, List.cons_append, parseNum_neg n.natAbs rest h]
    have hA : (-(n.natAbs : Int)) = n := by omega
    rw [hA]
  · rw [intDec, if_neg hn, parseNum_natDec n.toNat rest h]
    have hA : ((n.toNat : Nat) : Int) = n := by omega
    rw [hA]


/-! ## Theorems: string-literal round trip -/

theorem hex4_parse (x : Nat) (cs : List Char) (hlt : x < 65536) :
    parseHex4 (hex4 x ++ cs) = some (x, cs) := by
  have e1 : hexVal (hexChar (x / 4096 % 16)) = some (x / 4096 % 16) :=
    hexVal_hexChar (Nat.mod_lt _ (by omega))
  have e2 : hexVal (hexChar (x / 256 % 16)) = some (x / 256 % 16) :=
    hexVal_hexChar (Nat.mod_lt _ (by omega))
  have e3 : hexVal (hexChar (x / 16 % 16)) = some (x / 16 % 16) :=
    hexVal_hexChar (Nat.mod_lt _ (by omega))
  have e4 : hexVal (hexChar (x % 16)) = some (x % 16) :=
    hexVal_hexChar (Nat.mod_lt _ (by omega))
  simp only [hex4, List.cons_append, List.nil_append, parseHex4, e1, e2, e3, e4]
  congr 1
  congr 1
  omega

theorem psa_esc_quote (fuel : Nat) (cs acc : List Char) :
    parseStrAux (fuel + 1) ('\\' :: '"' :: cs) acc = parseStrAux fuel cs ('"' :: acc) := rfl

theorem psa_esc_bslash (fuel : Nat) (cs acc : List Char) :
    parseStrAux (fuel + 1) ('\\' :: '\\' :: cs) acc = parseStrAux fuel cs ('\\' :: acc) := rfl

theorem psa_esc_b (fuel : Nat) (cs acc : List Char) :
    parseStrAux (fuel + 1) ('\\' :: 'b' :: cs) acc = parseStrAux fuel cs (Char.ofNat 8 :: acc) :=
  rfl

theorem psa_esc_t (fuel : Nat) (cs acc : List Char) :
    parseStrAux (fuel + 1) ('\\' :: 't' :: cs) acc = parseStrAux fuel cs ('\t' :: acc) := rfl

theorem psa_esc_n (fuel : Nat) (cs acc : List Char) :
    parseStrAux (fuel + 1) ('\\' :: 'n' :: cs) acc = parseStrAux fuel cs ('\n' :: acc) := rfl

theorem psa_esc_f (fuel : Nat) (cs acc : List Char) :
    parseStrAux (fuel + 1) ('\\' :: 'f' :: cs) acc = parseStrAux fuel cs (Char.ofNat 12 :: acc) :=
  rfl

theorem psa_esc_r (fuel : Nat) (cs acc : List Char) :
    parseStrAux (fuel + 1) ('\\' :: 'r' :: cs) acc = parseStrAux fuel cs (Char.ofNat 13 :: acc) :=
  rfl

theorem psa_quote (fuel : Nat) (cs acc : List Char) :
    parseStrAux (fuel + 1) ('"' :: cs) acc = some (⟨acc.reverse⟩, cs) := rfl

theorem psa_lit (fuel : Nat) (c : Char) (cs acc : List Char) (h1 : ¬c = '"') (h2 : ¬c = '\\')
    (h3 : 32 ≤ c.toNat) :
    parseStrAux (fuel + 1) (c :: cs) acc = parseStrAux fuel cs (c :: acc) := by
  simp only [parseStrAux]
  rw [if_neg h1, if_neg h2, if_pos h3]

theorem psa_u_ok (fuel n : Nat) (cs2 acc : List Char) (hlt : n < 65536)
    (hok : n < 55296 ∨ 57344 ≤ n) :
    parseStrAux (fuel + 1) ('\\' :: 'u' :: (hex4 n ++ cs2)) acc
      = parseStrAux fuel cs2 (Char.ofNat n :: acc) := by
  have hp : parseHex4 (hex4 n ++ cs2) = some (n, cs2) := hex4_parse n cs2 hlt
  simp [parseStrAux, hp, hok]

theorem psa_u_sur (fuel hi lo : Nat) (cs2 acc : List Char) (hhi : 55296 ≤ hi ∧ hi < 56320)
    (hlo : 56320 ≤ lo ∧ lo < 57344) :
    parseStrAux (fuel + 1) ('\\' :: 'u' :: (hex4 hi ++ ('\\' :: 'u' :: (hex4 lo ++ cs2)))) acc
      = parseStrAux fuel cs2 (Char.ofNat (65536 + (hi - 55296) * 1024 + (lo - 56320)) :: acc) := by
  have hp : parseHex4 (hex4 hi ++ ('\\' :: 'u' :: (hex4 lo ++ cs2)))
      = some (hi, '\\' :: 'u' :: (hex4 lo ++ cs2)) := hex4_parse hi _ (by omega)
  have hq : parseHex4 (hex4 lo ++ cs2) = some (lo, cs2) := hex4_parse lo _ (by omega)
  have hc1 : ¬(hi < 55296 ∨ 57344 ≤ hi) := by omega
  have hc2 : hi < 56320 := hhi.2
  simp [parseStrAux, hp, hq, hc1, hc2, hlo.1, hlo.2]

theorem parseStrAux_escChar (fuel : Nat) (c : Char) (cs2 acc : List Char) :
    parseStrAux (fuel + 1) (escChar c ++ cs2) acc = parseStrAux fuel cs2 (c :: acc) := by
  by_cases h1 : c = '"'
  · subst h1
    exact psa_esc_quote fuel cs2 acc
  by_cases h2 : c = '\\'
  · subst h2
    exact psa_esc_bslash fuel cs2 acc
  by_cases h3 : c.toNat = 8
  · rw [show escChar c = ['\\', 'b'] from by simp [escChar, h1, h2, h3]]
    rw [List.cons_append, List.singleton_append, psa_esc_b, char_eq_of_toNat h3]
  by_cases h4 : c.toNat = 9
  · rw [show escChar c = ['\\', 't'] from by simp [escChar, h1, h2, h3, h4]]
    rw [List.cons_append, List.singleton_append, psa_esc_t]
    rw [show ('\t' : Char) = Char.ofNat 9 from rfl, char_eq_of_toNat h4]
  by_cases h5 : c.toNat = 10
  · rw [show escChar c = ['\\', 'n'] from by simp [escChar, h1, h2, h3, h4, h5]]
    rw [List.cons_append, List.singleton_append, psa_esc_n]
    rw [show ('\n' : Char) = Char.ofNat 10 from rfl, char_eq_of_toNat h5]
  by_cases h6 : c.toNat = 12
  · rw [show escChar c = ['\\', 'f'] from by simp [escChar, h1, h2, h3, h4, h5, h6]]
    rw [List.cons_append, List.singleton_append, psa_esc_f, char_eq_of_toNat h6]
  by_cases h7 : c.toNat = 13
  · rw [show escChar c = ['\\', 'r'] from by simp [escChar, h1, h2, h3, h4, h5, h6, h7]]
    rw [List.cons_append, List.singleton_append, psa_esc_r, char_eq_of_toNat h7]
  by_cases h8 : c.toNat < 32
  · rw [show escChar c = '\\' :: 'u' :: hex4 c.toNat from by
      simp [escChar, h1, h2, h3, h4, h5, h6, h7, h8]]
    rw [List.cons_append, List.cons_append]
    rw [psa_u_ok fuel c.toNat cs2 acc (by omega) (by omega), Char.ofNat_toNat]
  by_cases h9 : c.toNat < 127
  · rw [show escChar c = [c] from by simp [escChar, h1, h2, h3, h4, h5, h6, h7, h8, h9]]
    rw [List.singleton_append, psa_lit fuel c cs2 acc h1 h2 (by omega)]
  by_cases h10 : c.toNat < 65536
  · have hval := char_toNat_valid c
    rw [show escChar c = '\\' :: 'u' :: hex4 c.toNat from by
      simp [escChar, h1, h2, h3, h4, h5, h6, h7, h8, h9, h10]]
    rw [List.cons_append, List.cons_append]
    rw [psa_u_ok fuel c.toNat cs2 acc h10 (by omega), Char.ofNat_toNat]
  · have hval := char_toNat_valid c
    rw [show escChar c = ('\\' :: 'u' :: hex4 (55296 + (c.toNat - 65536) / 1024)) ++
        ('\\' :: 'u' :: hex4 (56320 + (c.toNat - 65536) % 1024)) from by
      simp [escChar, h1, h2, h3, h4, h5, h6, h7, h8, h9, h10]]
    have hdiv : (c.toNat - 65536) / 1024 < 1024 := by omega
    have hmod : (c.toNat - 65536) % 1024 < 1024 := Nat.mod_lt _ (by omega)
    simp only [List.cons_append, List.append_assoc]
    rw [psa_u_sur fuel (55296 + (c.toNat - 65536) / 1024) (56320 + (c.toNat - 65536) % 1024)
      cs2 acc ⟨by omega, by omega⟩ ⟨by omega, by omega⟩]
    have hcomb : 65536 + (55296 + (c.toNat - 65536) / 1024 - 55296) * 1024 +
        (56320 + (c.toNat - 65536) % 1024 - 56320) = c.toNat := by omega
    rw [hcomb, Char.ofNat_toNat]

theorem parseStrAux_flat (cs : List Char) : ∀ fuel acc rest, cs.length < fuel →
    parseStrAux fuel (cs.flatMap escChar ++ '"' :: rest) acc
      = some (⟨acc.reverse ++ cs⟩, rest) := by
  induction cs with
  | nil =>
    intro fuel acc rest h
    match fuel, h with
    | f + 1, _ =>
      simp only [List.flatMap_nil, List.nil_append, psa_quote]
      simp
  | cons c cs IH =>
    intro fuel acc rest h
    match fuel, h with
    | f + 1, h =>
      rw [List.flatMap_cons, List.append_assoc, parseStrAux_escChar, IH f (c :: acc) rest
        (by simp only [List.length_cons] at h; omega)]
      simp

theorem escChar_length_pos (c : Char) : 1 ≤ (escChar c).length := by
  unfold escChar
  repeat' split
  all_goals simp [hex4]

theorem flatMap_escChar_length (cs : List Char) : cs.length ≤ (cs.flatMap escChar).length := by
  induction cs with
  | nil => simp
  | cons c cs IH =>
    rw [List.flatMap_cons, List.length_append, List.length_cons]
    have := escChar_length_pos c
    omega

/-! ## Theorems: parse–dump round trip -/

theorem skipWs_cons_nonws {c : Char} (cs : List Char) (h : isWsChar c = false) :
    skipWs (c :: cs) = c :: cs := by simp [skipWs, h]

theorem intDec_head (n : Int) : ∃ d ds, intDec n = d :: ds ∧ isWsChar d = false ∧
    (d = '-' ∨ d.isDigit = true) := by
  by_cases hn : n < 0
  · exact ⟨'-', natDec n.natAbs, by rw [intDec, if_pos hn], by decide, Or.inl rfl⟩
  · obtain ⟨d, ds, hd, hdig⟩ := natDec_cons n.toNat
    exact ⟨d, ds, by rw [intDec, if_neg hn, hd], digit_not_ws hdig, Or.inr hdig⟩

theorem valStart_facts {c : Char} (h : valStartChar c = true) :
    isWsChar c = false ∧ c ≠ ']' ∧ c ≠ '}' := by
  simp only [valStartChar, Bool.or_eq_true, decide_eq_true_eq] at h
  rcases h with ((((((h | h) | h) | h) | h) | h) | h) | h
  · subst h; exact ⟨by decide, by decide, by decide⟩
  · subst h; exact ⟨by decide, by decide, by decide⟩
  · subst h; exact ⟨by decide, by decide, by decide⟩
  · subst h; exact ⟨by decide, by decide, by decide⟩
  · subst h; exact ⟨by decide, by decide, by decide⟩
  · subst h; exact ⟨by decide, by decide, by decide⟩
  · subst h; exact ⟨by decide, by decide, by decide⟩
  · refine ⟨digit_not_ws h, ?_, ?_⟩
    · intro he; subst he; revert h; decide
    · intro he; subst he; revert h; decide

theorem dumpJ_head (v : Json) : ∃ c cs, dumpJ v = c :: cs ∧ valStartChar c = true := by
  cases v with
  | null => exact ⟨'n', _, rfl, by decide⟩
  | bool b => cases b
              · exact ⟨'f', _, rfl, by decide⟩
              · exact ⟨'t', _, rfl, by decide⟩
  | num n =>
    obtain ⟨d, ds, hd, _, hc⟩ := intDec_head n
    refine ⟨d, ds, hd, ?_⟩
    rcases hc with hc | hc
    · subst hc; decide
    · simp [valStartChar, hc]
  | str s => exact ⟨'"', _, rfl, by decide⟩
  | arr xs => exact ⟨'[', _, rfl, by decide⟩
  | obj kvs => exact ⟨'{', _, rfl, by decide⟩

theorem parse_strLit (s : String) (rest2 : List Char) :
    parseStrAux ((s.data.flatMap escChar ++ '"' :: rest2).length + 1)
      (s.data.flatMap escChar ++ '"' :: rest2) [] = some (s, rest2) := by
  rw [parseStrAux_flat s.data _ [] rest2 (by
    have := flatMap_escChar_length s.data
    simp only [List.length_append, List.length_cons]
    omega)]
  cases s
  simp

theorem intDec_ne_nil (n : Int) : intDec n ≠ [] := by
  rw [intDec]
  split
  · simp
  · exact natDec_ne_nil _

theorem boundary_dumpA1 (tl : JsonA) (rest : List Char) :
    ∀ c, (dumpA1 tl ++ ']' :: rest).head? = some c → c.isDigit = false := by
  cases tl with
  | nil => intro c hc; simp [dumpA1] at hc; subst hc; decide
  | cons y tl2 => intro c hc; simp [dumpA1] at hc; rw [← hc]; decide

theorem boundary_dumpO1 (tl : JsonO) (rest : List Char) :
    ∀ c, (dumpO1 tl ++ '}' :: rest).head? = some c → c.isDigit = false := by
  cases tl with
  | nil => intro c hc; simp [dumpO1] at hc; subst hc; decide
  | cons k v tl2 => intro c hc; simp [dumpO1] at hc; rw [← hc]; decide

theorem sizeJ_pos (v : Json) : 1 ≤ sizeJ v := by
  cases v <;> simp [sizeJ]

theorem dumpA1_len (xs : JsonA) : (dumpA1 xs).length ≤ (dumpA xs).length + 1 := by
  cases xs <;> simp [dumpA, dumpA1]

theorem dumpO1_len (kvs : JsonO) : (dumpO1 kvs).length ≤ (dumpO kvs).length + 1 := by
  cases kvs <;> simp [dumpO, dumpO1]

mutual

theorem sizeJ_le_dump : ∀ v : Json, sizeJ v ≤ (dumpJ v).length
  | .null => by simp [sizeJ, dumpJ]
  | .bool b => by cases b <;> simp [sizeJ, dumpJ]
  | .num n => by
    simp only [sizeJ, dumpJ]
    cases h : intDec n with
    | nil => exact absurd h (intDec_ne_nil n)
    | cons d ds => simp
  | .str s => by simp [sizeJ, dumpJ, strLit]
  | .arr xs => by
    have h1 := sizeA_le_dump xs
    have h2 := dumpA1_len xs
    simp only [sizeJ, dumpJ, List.length_cons, List.length_append, List.length_singleton]
    omega
  | .obj kvs => by
    have h1 := sizeO_le_dump kvs
    have h2 := dumpO1_len kvs
    simp only [sizeJ, dumpJ, List.length_cons, List.length_append, List.length_singleton]
    omega

theorem sizeA_le_dump : ∀ xs : JsonA, sizeA xs ≤ (dumpA1 xs).length
  | .nil => by simp [sizeA, dumpA1]
  | .cons x tl => by
    have h1 := sizeJ_le_dump x
    have h2 := sizeA_le_dump tl
    simp only [sizeA, dumpA1, List.length_cons, List.length_append]
    omega

theorem sizeO_le_dump : ∀ kvs : JsonO, sizeO kvs ≤ (dumpO1 kvs).length
  | .nil => by simp [sizeO, dumpO1]
  | .cons k v tl => by
    have h1 := sizeJ_le_dump v
    have h2 := sizeO_le_dump tl
    simp only [sizeO, dumpO1, List.length_cons, List.length_append]
    omega

end

theorem parse_dump_all : ∀ fuel : Nat,
    (∀ (v : Json) (rest : List Char), sizeJ v ≤ fuel →
      (∀ c, rest.head? = some c → c.isDigit = false) →
      parseVal fuel (dumpJ v ++ rest) = some (v, rest)) ∧
    (∀ (x : Json) (tl : JsonA) (rest : List Char), sizeJ x + sizeA tl + 1 ≤ fuel →
      parseElems fuel (dumpJ x ++ (dumpA1 tl ++ ']' :: rest)) = some (.cons x tl, rest)) ∧
    (∀ (k : String) (v : Json) (tl : JsonO) (rest : List Char), sizeJ v + sizeO tl + 1 ≤ fuel →
      parseMembers fuel (strLit k ++ ':' :: (dumpJ v ++ (dumpO1 tl ++ '}' :: rest)))
        = some (.cons k v tl, rest)) := by
  intro fuel
  induction fuel using Nat.strong_induction_on with
  | _ fuel IH =>
  match fuel with
  | 0 =>
    refine ⟨?_, ?_, ?_⟩
    · intro v rest hle _
      have := sizeJ_pos v
      omega
    · intro x tl rest hle
      have := sizeJ_pos x
      omega
    · intro k v tl rest hle
      have := sizeJ_pos v
      omega
  | f + 1 =>
    have IH1 := (IH f (by omega)).1
    have IH2 := (IH f (by omega)).2.1
    have IH3 := (IH f (by omega)).2.2
    refine ⟨?_, ?_, ?_⟩
    · intro v rest hle hrest
      cases v with
      | null => simp [dumpJ, parseVal, skipWs, isWsChar]
      | bool b => cases b <;> simp [dumpJ, parseVal, skipWs, isWsChar]
      | num n =>
        obtain ⟨d, ds, hd, hws, hcond⟩ := intDec_head n
        show parseVal (f + 1) (intDec n ++ rest) = _
        rw [hd, List.cons_append]
        simp only [parseVal]
        rw [skipWs_cons_nonws _ hws]
        simp [hcond]
        rw [← List.cons_append, ← hd]
        exact parseNum_intDec n rest hrest
      | str s =>
        show parseVal (f + 1) (strLit s ++ rest) = some (.str s, rest)
        simp only [strLit, List.cons_append, List.append_assoc, List.singleton_append]
        simp only [parseVal]
        rw [skipWs_cons_nonws _ (by decide)]
        simp only [List.nil_append]
        rw [if_pos trivial, parse_strLit s rest]
        simp
      | arr xs =>
        cases xs with
        | nil =>
          show parseVal (f + 1) (dumpJ (.arr .nil) ++ rest) = _
          simp [dumpJ, dumpA, parseVal, skipWs, isWsChar]
        | cons x tl =>
          obtain ⟨c, cs', hc, hvs⟩ := dumpJ_head x
          obtain ⟨hnws, hnrb, hnrc⟩ := valStart_facts hvs
          show parseVal (f + 1) (dumpJ (.arr (.cons x tl)) ++ rest) = _
          simp only [dumpJ, dumpA, List.cons_append, List.append_assoc, List.singleton_append]
          have e2 : skipWs (dumpJ x ++ (dumpA1 tl ++ ']' :: rest))
              = c :: (cs' ++ (dumpA1 tl ++ ']' :: rest)) := by
            rw [hc, List.cons_append]
            exact skipWs_cons_nonws _ hnws
          have e3 : parseElems f (c :: (cs' ++ (dumpA1 tl ++ ']' :: rest)))
              = some (.cons x tl, rest) := by
            rw [← List.cons_append, ← hc]
            refine IH2 x tl rest ?_
            simp only [sizeJ, sizeA] at hle
            omega
          simp only [parseVal]
          rw [skipWs_cons_nonws _ (by decide)]
          simp [e2, e3, hnrb]
      | obj kvs =>
        cases kvs with
        | nil =>
          show parseVal (f + 1) (dumpJ (.obj .nil) ++ rest) = _
          simp [dumpJ, dumpO, parseVal, skipWs, isWsChar]
        | cons k v tl =>
          show parseVal (f + 1) (dumpJ (.obj (.cons k v tl)) ++ rest) = _
          simp only [dumpJ, dumpO, strLit, List.cons_append, List.append_assoc,
            List.singleton_append]
          have e3 : parseMembers f ('"' :: (k.data.flatMap escChar ++
              ('"' :: (':' :: (dumpJ v ++ (dumpO1 tl ++ '}' :: rest))))))
              = some (.cons k v tl, rest) := by
            have := IH3 k v tl rest (by
              simp only [sizeJ, sizeO] at hle
              omega)
            simp only [strLit, List.cons_append, List.append_assoc,
              List.singleton_append] at this
            exact this
          simp only [parseVal]
          rw [skipWs_cons_nonws _ (by decide)]
          simp [skipWs, isWsChar, e3]
    · intro x tl rest hle
      have hb := boundary_dumpA1 tl rest
      have hszx := sizeJ_pos x
      simp only [parseElems]
      rw [IH1 x (dumpA1 tl ++ ']' :: rest) (by omega) hb]
      cases tl with
      | nil =>
        simp [dumpA1, skipWs, isWsChar]
      | cons y tl2 =>
        simp only [dumpA1, List.cons_append, List.append_assoc]
        have e2 : parseElems f (dumpJ y ++ (dumpA1 tl2 ++ ']' :: rest))
            = some (.cons y tl2, rest) := by
          refine IH2 y tl2 rest ?_
          simp only [sizeA] at hle
          omega
        simp [skipWs, isWsChar, e2]
    · intro k v tl rest hle
      have hb := boundary_dumpO1 tl rest
      have hszv := sizeJ_pos v
      simp only [parseMembers, strLit, List.cons_append, List.append_assoc,
        List.singleton_append, List.nil_append]
      rw [skipWs_cons_nonws _ (by decide)]
      simp only []
      rw [parse_strLit k (':' :: (dumpJ v ++ (dumpO1 tl ++ '}' :: rest)))]
      simp only []
      rw [skipWs_cons_nonws _ (by decide)]
      simp only []
      rw [IH1 v (dumpO1 tl ++ '}' :: rest) (by omega) hb]
      cases tl with
      | nil =>
        simp [dumpO1, skipWs, isWsChar]
      | cons k2 v2 tl2 =>
        simp only [dumpO1, List.cons_append, List.append_assoc]
        have e2 : parseMembers f (strLit k2 ++ (':' :: (dumpJ v2 ++ (dumpO1 tl2 ++ '}' :: rest))))
            = some (.cons k2 v2 tl2, rest) := by
          refine IH3 k2 v2 tl2 rest ?_
          simp only [sizeO] at hle
          omega
        simp [skipWs, isWsChar, e2]

theorem loads_dumps (v : Json) : loads (dumps v) = some v := by
  rw [loads]
  have ht : (dumps v).toList = dumpJ v := rfl
  rw [ht]
  have h1 : parseVal ((dumpJ v).length + 1) (dumpJ v ++ []) = some (v, []) :=
    (parse_dump_all ((dumpJ v).length + 1)).1 v []
      (by have := sizeJ_le_dump v; omega) (by intro c hc; simp at hc)
  rw [List.append_nil] at h1
  rw [h1]
  simp [skipWs]

/-! ## Theorems: frame splitting and heartbeats -/

theorem takeWhile_all_append {p : Char → Bool} (ds : List Char) (c0 : Char) (tl : List Char)
    (hall : ∀ c ∈ ds, p c = true) (hc : p c0 = false) :
    (ds ++ c0 :: tl).takeWhile p = ds ∧ (ds ++ c0 :: tl).dropWhile p = c0 :: tl := by
  induction ds with
  | nil => simp [List.takeWhile_cons, List.dropWhile_cons, hc]
  | cons d ds IH =>
    have hd : p d = true := hall d (by simp)
    have IH2 := IH (fun c hc2 => hall c (by simp [hc2]))
    simp [List.takeWhile_cons, List.dropWhile_cons, hd, IH2.1, IH2.2]

theorem matchDelim_frame (n : Nat) (body : List Char) :
    matchDelim ('~' :: 'm' :: '~' :: (natDec n ++ ('~' :: 'm' :: '~' :: body))) = some body := by
  have h := takeWhile_all_append (p := Char.isDigit) (natDec n) '~' ('m' :: '~' :: body)
    (natDec_all_digits n) (by decide)
  obtain ⟨d, ds, hnd, _⟩ := natDec_cons n
  simp only [matchDelim]
  rw [h.1, h.2, hnd]
  simp

theorem matchDelim_some_len {cs r : List Char} (h : matchDelim cs = some r) :
    r.length + 7 ≤ cs.length := by
  unfold matchDelim at h
  split at h
  next rest =>
    by_cases he : (rest.takeWhile Char.isDigit).isEmpty
    · rw [if_pos he] at h
      exact absurd h (by simp)
    · rw [if_neg he] at h
      split at h
      next rest2 hd =>
        have hr : rest2 = r := Option.some.inj h
        subst hr
        have hsp : rest.takeWhile Char.isDigit ++ rest.dropWhile Char.isDigit = rest :=
          List.takeWhile_append_dropWhile (p := Char.isDigit) (l := rest)
        have hlen := congrArg List.length hsp
        rw [List.length_append, hd] at hlen
        have htw : 1 ≤ (rest.takeWhile Char.isDigit).length := by
          cases htw2 : rest.takeWhile Char.isDigit with
          | nil => rw [htw2] at he; simp at he
          | cons _ _ => simp
        simp only [List.length_cons] at hlen ⊢
        omega
      next => exact absurd h (by simp)
  next => exact absurd h (by simp)

theorem splitGoF_noDelim : ∀ (f : Nat) (cs acc : List Char), hasDelim cs = false →
    cs.length < f → splitGoF f cs acc = [acc.reverse ++ cs] := by
  intro f
  induction f with
  | zero => intro cs acc _ h; omega
  | succ g IHg =>
    intro cs acc h hlen
    cases cs with
    | nil => simp [splitGoF]
    | cons c cs' =>
      simp only [hasDelim, Bool.or_eq_false_iff] at h
      have hnone : matchDelim (c :: cs') = none := by
        cases hmd : matchDelim (c :: cs') with
        | none => rfl
        | some r => rw [hmd] at h; simp at h
      simp only [splitGoF, hnone]
      rw [IHg cs' (c :: acc) h.2 (by simp only [List.length_cons] at hlen; omega)]
      simp

theorem prepend_header_data (s : String) : (prepend_header s).data
    = '~' :: 'm' :: '~' :: (natDec s.length ++ ('~' :: 'm' :: '~' :: s.data)) := by
  cases s with
  | mk data =>
    simp only [prepend_header, natDecStr, String.data_append]
    simp

theorem splitGoF_cons_some {f : Nat} {c : Char} {cs rest acc : List Char}
    (h : matchDelim (c :: cs) = some rest) :
    splitGoF (f + 1) (c :: cs) acc = acc.reverse :: splitGoF f rest [] := by
  simp only [splitGoF, h]

theorem deframe_frame (s : String) (h : hasDelim s.data = false) (hne : s.data ≠ []) :
    deframe (prepend_header s) = [s] := by
  rw [deframe, prepend_header_data]
  rw [reSplitDelim]
  rw [splitGoF_cons_some (matchDelim_frame s.length s.data)]
  rw [splitGoF_noDelim _ s.data [] h (by
    simp only [List.length_cons, List.length_append]
    omega)]
  simp only [List.reverse_nil, List.nil_append]
  have hemp : s.data.isEmpty = false := by
    cases hs : s.data with
    | nil => exact absurd hs hne
    | cons c cs => rfl
  simp only [List.filter, List.isEmpty_nil, Bool.not_true, Bool.not_false, hemp, List.map]

theorem mk_heartbeat_data (n k : Nat) : (mk_heartbeat n k).data
    = '~' :: 'm' :: '~' :: (natDec n ++ ('~' :: 'm' :: '~' :: ('~' :: 'h' :: '~' :: natDec k))) := by
  simp only [mk_heartbeat, natDecStr, String.data_append]
  simp

theorem isHeartbeat_mk (n k : Nat) : isHeartbeat (mk_heartbeat n k) = true := by
  rw [isHeartbeat, mk_heartbeat_data, matchDelim_frame n ('~' :: 'h' :: '~' :: natDec k)]
  obtain ⟨d, ds, hd, _⟩ := natDec_cons k
  simp only [hd]
  simp only [List.isEmpty_cons, Bool.not_false, Bool.true_and]
  rw [← hd]
  exact List.all_eq_true.mpr (natDec_all_digits k)

/-! ## Claim C1 -/

/-- C1 counterexample: the round-trip law fails as universally stated.  For
the method name `~m~0~m~` (whose compact JSON serialization contains a
substring matching the frame-delimiter regex), framing the call built by
`construct_message` and deframing it yields two fragments, not one. -/
theorem claim_C1_counterexample :
    (deframe (prepend_header (construct_message "~m~0~m~" .nil))).length = 2 := by decide

/-- C1 (amended): for every method name and parameter list whose compact
JSON call (as built by `construct_message`) contains no substring matching
the frame-delimiter regex `~m~\d+~m~`, framing with `prepend_header` and
then deframing (splitting on the delimiter regex and discarding empty
fragments) yields exactly one fragment, and parsing that fragment as JSON
gives back exactly the object with keys `m` (the method) and `p` (the
parameter list). -/
theorem claim_C1 (func : String) (params : JsonA)
    (h : hasDelim (construct_message func params).data = false) :
    deframe (prepend_header (construct_message func params)) = [construct_message func params]
    ∧ loads (construct_message func params)
        = some (.obj (.cons "m" (.str func) (.cons "p" (.arr params) .nil))) := by
  constructor
  · refine deframe_frame _ h ?_
    show dumpJ (Json.obj (.cons "m" (.str func) (.cons "p" (.arr params) .nil))) ≠ []
    simp [dumpJ]
  · exact loads_dumps _

/-- C1 witness: the amended round-trip law applied to the concrete call
`set_locale(["en", "US"])`. -/
theorem claim_C1_witness :
    hasDelim (construct_message "set_locale"
        (.cons (.str "en") (.cons (.str "US") .nil))).data = false
    ∧ (deframe (prepend_header (construct_message "set_locale"
          (.cons (.str "en") (.cons (.str "US") .nil))))
        = [construct_message "set_locale" (.cons (.str "en") (.cons (.str "US") .nil))]
      ∧ loads (construct_message "set_locale" (.cons (.str "en") (.cons (.str "US") .nil)))
        = some (.obj (.cons "m" (.str "set_locale")
            (.cons "p" (.arr (.cons (.str "en") (.cons (.str "US") .nil))) .nil)))) :=
  ⟨by decide, claim_C1 "set_locale" (.cons (.str "en") (.cons (.str "US") .nil)) (by decide)⟩

/-! ## Theorems: dictionary operations -/

theorem dictInsert_lookup_self {α : Type} (d : List (String × α)) (k : String) (v : α) :
    slookup (dictInsert d k v) k = some v := by
  induction d with
  | nil => simp [dictInsert, slookup]
  | cons p tl IH =>
    by_cases h : p.1 = k
    · simp [dictInsert, h, slookup]
    · simp [dictInsert, h, slookup, IH]

theorem dictInsert_lookup_ne {α : Type} (d : List (String × α)) {k' k : String} (v : α)
    (h : k' ≠ k) : slookup (dictInsert d k' v) k = slookup d k := by
  induction d with
  | nil => simp [dictInsert, slookup, h]
  | cons p tl IH =>
    by_cases h2 : p.1 = k'
    · have h3 : ¬p.1 = k := by rw [h2]; exact h
      simp only [dictInsert, if_pos h2, slookup, if_neg h, if_neg h3]
    · simp [dictInsert, h2, slookup, IH]

theorem dictInsert_append_of_none {α : Type} (d : List (String × α)) (k : String) (v : α)
    (h : slookup d k = none) : dictInsert d k v = d ++ [(k, v)] := by
  induction d with
  | nil => simp [dictInsert]
  | cons p tl IH =>
    simp only [slookup] at h
    by_cases h2 : p.1 = k
    · rw [if_pos h2] at h
      exact absurd h (by simp)
    · rw [if_neg h2] at h
      simp [dictInsert, h2, IH h]

theorem dictUpdate_lookup_none {α : Type} (new : List (String × α)) :
    ∀ (d : List (String × α)) (k : String), slookup new k = none →
      slookup (dictUpdate d new) k = slookup d k := by
  induction new with
  | nil => intro d k _; rfl
  | cons p tl IH =>
    intro d k h
    simp only [slookup] at h
    by_cases h2 : p.1 = k
    · rw [if_pos h2] at h
      exact absurd h (by simp)
    · rw [if_neg h2] at h
      show slookup (dictUpdate (dictInsert d p.1 p.2) tl) k = _
      rw [IH (dictInsert d p.1 p.2) k h, dictInsert_lookup_ne d p.2 h2]

theorem slookup_some_mem_keys {α : Type} {tl : List (String × α)} {k : String} {v : α}
    (h : slookup tl k = some v) : k ∈ tl.map Prod.fst := by
  induction tl with
  | nil => simp [slookup] at h
  | cons q tl2 IH =>
    simp only [slookup] at h
    by_cases h3 : q.1 = k
    · simp [← h3]
    · rw [if_neg h3] at h
      simp [IH h]

theorem dictUpdate_lookup_some {α : Type} (new : List (String × α)) :
    ∀ (d : List (String × α)) (k : String) (v : α), (new.map Prod.fst).Nodup →
      slookup new k = some v → slookup (dictUpdate d new) k = some v := by
  induction new with
  | nil => intro d k v _ h; simp [slookup] at h
  | cons p tl IH =>
    intro d k v hnd h
    simp only [List.map_cons, List.nodup_cons] at hnd
    simp only [slookup] at h
    by_cases h2 : p.1 = k
    · rw [if_pos h2] at h
      have htl : slookup tl k = none := by
        cases hcl : slookup tl k with
        | none => rfl
        | some w =>
          exact absurd (by rw [h2]; exact slookup_some_mem_keys hcl) hnd.1
      show slookup (dictUpdate (dictInsert d p.1 p.2) tl) k = _
      rw [dictUpdate_lookup_none tl _ k htl, h2, dictInsert_lookup_self]
      rw [← h]
    · rw [if_neg h2] at h
      show slookup (dictUpdate (dictInsert d p.1 p.2) tl) k = _
      exact IH _ k v hnd.2 h

theorem dictInsert_keys_sub {α : Type} (d : List (String × α)) (k : String) (v : α) :
    ∀ k2, k2 ∈ (dictInsert d k v).map Prod.fst → k2 = k ∨ k2 ∈ d.map Prod.fst := by
  induction d with
  | nil => intro k2 h; simp [dictInsert] at h; exact Or.inl h
  | cons p tl IH =>
    intro k2 h
    by_cases h2 : p.1 = k
    · simp only [dictInsert, if_pos h2, List.map_cons, List.mem_cons] at h
      rcases h with h | h
      · exact Or.inl h
      · exact Or.inr (by simp [h])
    · simp only [dictInsert, if_neg h2, List.map_cons, List.mem_cons] at h
      rcases h with h | h
      · exact Or.inr (by simp [h])
      · rcases IH k2 h with h3 | h3
        · exact Or.inl h3
        · exact Or.inr (by simp [h3])

theorem dictInsert_keys_nodup {α : Type} (d : List (String × α)) (k : String) (v : α)
    (h : (d.map Prod.fst).Nodup) : ((dictInsert d k v).map Prod.fst).Nodup := by
  induction d with
  | nil => simp [dictInsert]
  | cons p tl IH =>
    simp only [List.map_cons, List.nodup_cons] at h
    by_cases h2 : p.1 = k
    · simp only [dictInsert, if_pos h2, List.map_cons, List.nodup_cons]
      exact ⟨by rw [← h2]; exact h.1, h.2⟩
    · simp only [dictInsert, if_neg h2, List.map_cons, List.nodup_cons]
      refine ⟨?_, IH h.2⟩
      intro hmem
      rcases dictInsert_keys_sub tl k v p.1 hmem with h3 | h3
      · exact h2 h3
      · exact h.1 h3

/-! ## Theorems: the candle-fetch loop -/

theorem step_pkt_eq {table : List (String × String)} {s : LoopState} {pkt : Json}
    {s' : LoopState} (h : step_pkt table s pkt = .ok s') :
    ∃ ro ri, extract_ohlcv_from_stream pkt = .ok ro
      ∧ extract_indicator_from_stream table pkt = .ok ri
      ∧ s' = ⟨if ro.isEmpty then s.ohlcv else ro,
              if ri.isEmpty then s.ind else dictUpdate s.ind ri⟩ := by
  cases hro : extract_ohlcv_from_stream pkt with
  | error e => rw [step_pkt, hro] at h; exact absurd h (by simp [Bind.bind, Except.bind])
  | ok ro =>
    cases hri : extract_indicator_from_stream table pkt with
    | error e =>
      rw [step_pkt, hro] at h
      simp only [Bind.bind, Except.bind, hri] at h
      exact absurd h (by simp [Pure.pure, Except.pure])
    | ok ri =>
      refine ⟨ro, ri, rfl, rfl, ?_⟩
      rw [step_pkt, hro] at h
      simp only [Bind.bind, Except.bind, hri, Pure.pure, Except.pure] at h
      exact (Except.ok.inj h).symm

theorem run_loop_stop {table : List (String × String)} {numb expected : Nat} {flag : Bool}
    {i : Nat} {s : LoopState} {pkt : Json} {rest : List Json} {s' : LoopState}
    (h : step_pkt table s pkt = .ok s') (h1 : numb ≤ s'.ohlcv.length)
    (h2 : flag = false ∨ expected ≤ s'.ind.length) :
    run_loop table numb expected flag i s (pkt :: rest) = .ok s' := by
  have hc : stop_cond numb expected flag s' = true := by
    simp only [stop_cond, Bool.and_eq_true, decide_eq_true_eq]
    rcases h2 with h2 | h2
    · exact ⟨h1, by simp [h2]⟩
    · exact ⟨h1, by simp [h2]⟩
  simp [run_loop, h, Bind.bind, Except.bind, hc, Pure.pure, Except.pure]

theorem run_loop_cont {table : List (String × String)} {numb expected : Nat} {flag : Bool}
    {i : Nat} {s : LoopState} {pkt : Json} {rest : List Json} {s' : LoopState}
    (h : step_pkt table s pkt = .ok s')
    (h1 : ¬(numb ≤ s'.ohlcv.length ∧ (flag = false ∨ expected ≤ s'.ind.length)))
    (h2 : i ≤ 15) :
    run_loop table numb expected flag i s (pkt :: rest)
      = run_loop table numb expected flag (i + 1) s' rest := by
  have hc : stop_cond numb expected flag s' = false := by
    cases hst : stop_cond numb expected flag s' with
    | false => rfl
    | true =>
      exfalso
      apply h1
      simp only [stop_cond, Bool.and_eq_true, Bool.or_eq_true, Bool.not_eq_true',
        decide_eq_true_eq] at hst
      exact ⟨hst.1, hst.2⟩
  simp [run_loop, h, Bind.bind, Except.bind, hc, show ¬(15 < i) from by omega]

theorem run_loop_ceiling {table : List (String × String)} {numb expected : Nat} {flag : Bool}
    {i : Nat} {s : LoopState} {pkt : Json} {rest : List Json} {s' : LoopState}
    (h : step_pkt table s pkt = .ok s') (h2 : 15 < i) :
    run_loop table numb expected flag i s (pkt :: rest) = .ok s' := by
  by_cases hc : stop_cond numb expected flag s' = true
  · simp [run_loop, h, Bind.bind, Except.bind, hc, Pure.pure, Except.pure]
  · have hc2 : stop_cond numb expected flag s' = false := by
      cases hst : stop_cond numb expected flag s' with
      | false => rfl
      | true => exact absurd hst hc
    simp [run_loop, h, Bind.bind, Except.bind, hc2, h2, Pure.pure, Except.pure]

theorem step_pkt_nonempty {table : List (String × String)} {s : LoopState} {pkt : Json}
    {s' : LoopState} (h : step_pkt table s pkt = .ok s') (hne : s.ohlcv ≠ []) :
    s'.ohlcv ≠ [] := by
  obtain ⟨ro, ri, _, _, hs⟩ := step_pkt_eq h
  subst hs
  by_cases hro : ro.isEmpty
  · simpa [hro] using hne
  · simp only [hro, if_false, Bool.false_eq_true]
    cases ro with
    | nil => simp at hro
    | cons a as => simp

theorem run_loop_nonempty {table : List (String × String)} {numb expected : Nat} {flag : Bool} :
    ∀ (pkts : List Json) (i : Nat) (s s' : LoopState),
      run_loop table numb expected flag i s pkts = .ok s' → s.ohlcv ≠ [] → s'.ohlcv ≠ [] := by
  intro pkts
  induction pkts with
  | nil =>
    intro i s s' h hne
    rw [run_loop] at h
    rw [← Except.ok.inj h]
    exact hne
  | cons pkt rest IH =>
    intro i s s' h hne
    cases hst : step_pkt table s pkt with
    | error e =>
      rw [run_loop, hst] at h
      exact absurd h (by simp [Bind.bind, Except.bind])
    | ok s1 =>
      have h1 := step_pkt_nonempty hst hne
      rw [run_loop, hst] at h
      simp only [Bind.bind, Except.bind] at h
      by_cases hc : stop_cond numb expected flag s1 = true
      · rw [if_pos hc] at h
        simp only [Pure.pure, Except.pure] at h
        rw [← Except.ok.inj h]
        exact h1
      · rw [if_neg hc] at h
        by_cases hi : 15 < i
        · rw [if_pos hi] at h
          simp only [Pure.pure, Except.pure] at h
          rw [← Except.ok.inj h]
          exact h1
        · rw [if_neg hi] at h
          exact IH (i + 1) s1 s' h h1

theorem get_candles_success_of_ok (exchange symbol timeframe : String) (numb_candles : Nat)
    (indicators : List (String × String)) (b : Bool) (val_oracle : Exc Bool)
    (fetch : Nat → Option (List Json)) (qs cs : String) (events : List RecvEvent)
    (table : List (String × String)) (sends2 : List Sent) (s : LoopState)
    (hval : validate_symbols exchange symbol val_oracle = .ok b)
    (hind : (if !indicators.isEmpty then add_indicators qs fetch indicators
      else ([], .ok [])) = (sends2, .ok table))
    (hrun : run_loop table numb_candles (if !indicators.isEmpty then indicators.length else 0)
      (!indicators.isEmpty) 0 ⟨[], []⟩ (packetsOf events) = .ok s) :
    get_candles exchange symbol timeframe numb_candles indicators val_oracle fetch qs cs events
      = (success_response (.obj (.cons "ohlcv" (.arr (ofListA s.ohlcv))
          (.cons "indicators" (.obj (ofPairsO s.ind)) .nil)))
          [("exchange", .str exchange), ("symbol", .str symbol),
           ("timeframe", .str timeframe), ("numb_candles", .num (numb_candles : Int))],
        add_symbol_msgs qs cs (format_symbol exchange symbol) timeframe numb_candles ++ sends2) := by
  rw [get_candles, hval]
  simp only [hind, hrun]

/-! ## Claim C2 -/

/-- C2: each timescale_update packet that delivers entries (non-empty
extraction) replaces — does not append to — the accumulated OHLCV list: the
post-state list is exactly the extracted list, independent of the previous
accumulation.  Concretely, a packet A delivering 3 entries followed by a
packet B delivering 5 entries (with `numb_candles = 5`, no indicators)
leaves exactly B's 5 entries in the final loop state, not 8. -/
theorem claim_C2 :
    (∀ (table : List (String × String)) (s : LoopState) (pkt : Json) (s' : LoopState)
      (L : List Json), step_pkt table s pkt = .ok s' →
      extract_ohlcv_from_stream pkt = .ok L → L ≠ [] → s'.ohlcv = L)
    ∧ (match extract_ohlcv_from_stream (mk_ts_pkt (.str "cs_test") (ofListA ((List.range 3).map
        fun i => mk_ohlcv_entry i (1700000000 + 60 * (i : Int)) 100 105 99 102 5000))),
        extract_ohlcv_from_stream (mk_ts_pkt (.str "cs_test") (ofListA ((List.range 5).map
        fun i => mk_ohlcv_entry i (1700000000 + 60 * (i : Int)) 100 105 99 102 5000))) with
      | .ok LA, .ok LB =>
        LA.length = 3 ∧ LB.length = 5
        ∧ run_loop [] 5 0 false 0 ⟨[], []⟩
            [mk_ts_pkt (.str "cs_test") (ofListA ((List.range 3).map
              fun i => mk_ohlcv_entry i (1700000000 + 60 * (i : Int)) 100 105 99 102 5000)),
             mk_ts_pkt (.str "cs_test") (ofListA ((List.range 5).map
              fun i => mk_ohlcv_entry i (1700000000 + 60 * (i : Int)) 100 105 99 102 5000))]
            = .ok ⟨LB, []⟩
      | _, _ => False) := by
  constructor
  · intro table s pkt s' L h hro hne
    obtain ⟨ro, ri, hro2, _, hs⟩ := step_pkt_eq h
    rw [hro] at hro2
    have hL : L = ro := Except.ok.inj hro2
    subst hL
    subst hs
    cases hL2 : L with
    | nil => exact absurd hL2 hne
    | cons a as => simp [hL2]
  · exact ⟨by rfl, by rfl, by rfl⟩

/-! ## Claim C10 -/

/-- C10: a timescale_update packet whose extracted OHLCV list is empty leaves
the accumulated OHLCV list unchanged (replacement happens only for non-empty
snapshots), and consequently once the accumulated list is non-empty it stays
non-empty for the rest of the loop. -/
theorem claim_C10 :
    (∀ (table : List (String × String)) (s : LoopState) (pkt : Json) (s' : LoopState),
      step_pkt table s pkt = .ok s' → extract_ohlcv_from_stream pkt = .ok [] →
      s'.ohlcv = s.ohlcv)
    ∧ (∀ (table : List (String × String)) (numb expected : Nat) (flag : Bool)
      (pkts : List Json) (i : Nat) (s s' : LoopState),
      run_loop table numb expected flag i s pkts = .ok s' → s.ohlcv ≠ [] → s'.ohlcv ≠ []) := by
  constructor
  · intro table s pkt s' h hro
    obtain ⟨ro, ri, hro2, _, hs⟩ := step_pkt_eq h
    rw [hro] at hro2
    have hL : ([] : List Json) = ro := Except.ok.inj hro2
    subst hs
    rw [← hL]
    simp
  · intro table numb expected flag pkts i s s' h hne
    exact run_loop_nonempty pkts i s s' h hne

/-- C2 witness: a packet delivering one entry replaces a non-empty
accumulated list with exactly that entry. -/
theorem claim_C2_witness :
    LoopState.ohlcv ⟨[Json.obj (ofPairsO [("index", .num 0), ("timestamp", .num 1),
        ("open", .num 2), ("high", .num 3), ("low", .num 4), ("close", .num 5),
        ("volume", .num 6)])], []⟩
      = [Json.obj (ofPairsO [("index", .num 0), ("timestamp", .num 1), ("open", .num 2),
        ("high", .num 3), ("low", .num 4), ("close", .num 5), ("volume", .num 6)])] :=
  claim_C2.1 [] ⟨[Json.null], []⟩
    (mk_ts_pkt (.str "cs") (.cons (mk_ohlcv_entry 0 1 2 3 4 5 6) .nil))
    ⟨[Json.obj (ofPairsO [("index", .num 0), ("timestamp", .num 1), ("open", .num 2),
        ("high", .num 3), ("low", .num 4), ("close", .num 5), ("volume", .num 6)])], []⟩
    [Json.obj (ofPairsO [("index", .num 0), ("timestamp", .num 1), ("open", .num 2),
        ("high", .num 3), ("low", .num 4), ("close", .num 5), ("volume", .num 6)])]
    rfl rfl (by simp)

/-- C10 witness: stepping a packet with empty extraction from a one-entry
state leaves it unchanged, and the loop keeps it non-empty. -/
theorem claim_C10_witness :
    (LoopState.ohlcv ⟨[Json.null], []⟩ = LoopState.ohlcv ⟨[Json.null], []⟩)
    ∧ LoopState.ohlcv ⟨[Json.null], []⟩ ≠ [] :=
  ⟨claim_C10.1 [] ⟨[Json.null], []⟩ (.obj .nil) ⟨[Json.null], []⟩ rfl rfl,
   claim_C10.2 [] 0 0 false [] 0 ⟨[Json.null], []⟩ ⟨[Json.null], []⟩ rfl (by simp)⟩

/-! ## Claim C7 -/

/-- C7: a raw socket message matching the heartbeat regex
`~m~\d+~m~~h~\d+$` is never split or JSON-decoded and never yielded as a
packet; it is echoed back over the socket unmodified exactly once, after
which the receive loop continues with the next message — in both
`streamer.py`'s and `price.py`'s `_get_data`.  Additionally, every frame of
the shape `~m~{n}~m~~h~{k}` matches the heartbeat regex. -/
theorem claim_C7 :
    (∀ (s : String), isHeartbeat s = true → ∀ evs,
      get_data (.msg s :: evs) = .echo s :: get_data evs)
    ∧ (∀ (s : String), isHeartbeat s = true → ∀ evs,
      get_data_price (.msg s :: evs) = .echo s :: get_data_price evs)
    ∧ (∀ n k, isHeartbeat (mk_heartbeat n k) = true) := by
  refine ⟨?_, ?_, ?_⟩
  · intro s h evs
    simp [get_data, h]
  · intro s h evs
    simp [get_data_price, h]
  · intro n k
    exact isHeartbeat_mk n k

/-- C7 witness: the concrete heartbeat `~m~4~m~~h~42` is echoed once and
yields no packet. -/
theorem claim_C7_witness :
    get_data [.msg "~m~4~m~~h~42"] = [.echo "~m~4~m~~h~42"]
    ∧ get_data_price [.msg "~m~4~m~~h~42"] = [.echo "~m~4~m~~h~42"] :=
  ⟨(claim_C7.1 "~m~4~m~~h~42" (by decide) []).trans rfl,
   (claim_C7.2.1 "~m~4~m~~h~42" (by decide) []).trans rfl⟩

/-! ## Claim C4 -/

/-- C4: the candle-fetch receive loop stops exactly when, after processing a
packet, `len(ohlcv) ≥ numb_candles` and (no indicators requested or the
indicator map has at least as many entries as requested); otherwise, below
the iteration ceiling it continues with the next packet; once the packet
index exceeds 15 (i.e. more than 16 packets processed) it stops regardless;
and whenever the loop finishes without an exception — including by ceiling —
`get_candles` returns the accumulated data as a success-status envelope, not
an error. -/
theorem claim_C4 :
    (∀ (table : List (String × String)) (numb expected : Nat) (flag : Bool) (i : Nat)
      (s : LoopState) (pkt : Json) (rest : List Json) (s' : LoopState),
      step_pkt table s pkt = .ok s' → numb ≤ s'.ohlcv.length →
      (flag = false ∨ expected ≤ s'.ind.length) →
      run_loop table numb expected flag i s (pkt :: rest) = .ok s')
    ∧ (∀ (table : List (String × String)) (numb expected : Nat) (flag : Bool) (i : Nat)
      (s : LoopState) (pkt : Json) (rest : List Json) (s' : LoopState),
      step_pkt table s pkt = .ok s' →
      ¬(numb ≤ s'.ohlcv.length ∧ (flag = false ∨ expected ≤ s'.ind.length)) → i ≤ 15 →
      run_loop table numb expected flag i s (pkt :: rest)
        = run_loop table numb expected flag (i + 1) s' rest)
    ∧ (∀ (table : List (String × String)) (numb expected : Nat) (flag : Bool) (i : Nat)
      (s : LoopState) (pkt : Json) (rest : List Json) (s' : LoopState),
      step_pkt table s pkt = .ok s' → 15 < i →
      run_loop table numb expected flag i s (pkt :: rest) = .ok s')
    ∧ (∀ (exchange symbol timeframe : String) (numb_candles : Nat)
      (indicators : List (String × String)) (b : Bool) (val_oracle : Exc Bool)
      (fetch : Nat → Option (List Json)) (qs cs : String) (events : List RecvEvent)
      (table : List (String × String)) (sends2 : List Sent) (s : LoopState),
      validate_symbols exchange symbol val_oracle = .ok b →
      (if !indicators.isEmpty then add_indicators qs fetch indicators
        else ([], .ok [])) = (sends2, .ok table) →
      run_loop table numb_candles (if !indicators.isEmpty then indicators.length else 0)
        (!indicators.isEmpty) 0 ⟨[], []⟩ (packetsOf events) = .ok s →
      (get_candles exchange symbol timeframe numb_candles indicators val_oracle fetch qs cs
          events).1
        = success_response (.obj (.cons "ohlcv" (.arr (ofListA s.ohlcv))
            (.cons "indicators" (.obj (ofPairsO s.ind)) .nil)))
            [("exchange", .str exchange), ("symbol", .str symbol),
             ("timeframe", .str timeframe), ("numb_candles", .num (numb_candles : Int))]) := by
  refine ⟨?_, ?_, ?_, ?_⟩
  · intro table numb expected flag i s pkt rest s' h h1 h2
    exact run_loop_stop h h1 h2
  · intro table numb expected flag i s pkt rest s' h h1 h2
    exact run_loop_cont h h1 h2
  · intro table numb expected flag i s pkt rest s' h h2
    exact run_loop_ceiling h h2
  · intro exchange symbol timeframe numb_candles indicators b val_oracle fetch qs cs events
      table sends2 s hval hind hrun
    rw [get_candles_success_of_ok exchange symbol timeframe numb_candles indicators b
      val_oracle fetch qs cs events table sends2 s hval hind hrun]

/-- C4 witness: with `numb_candles = 0` and no indicators the loop stops on
the first packet; and a `get_candles` run over an empty event stream (the
ceiling path degenerately satisfied) returns a success envelope with the
empty accumulation. -/
theorem claim_C4_witness :
    run_loop [] 0 0 false 0 ⟨[], []⟩ [.obj .nil] = .ok ⟨[], []⟩
    ∧ (get_candles "BINANCE" "BTCUSDT" "1m" 10 [] (.ok true) (fun _ => none) "qs" "cs" []).1
      = success_response (.obj (.cons "ohlcv" (.arr (ofListA ([] : List Json)))
          (.cons "indicators" (.obj (ofPairsO ([] : List (String × Json)))) .nil)))
          [("exchange", .str "BINANCE"), ("symbol", .str "BTCUSDT"),
           ("timeframe", .str "1m"), ("numb_candles", .num (10 : Int))] :=
  ⟨claim_C4.1 [] 0 0 false 0 ⟨[], []⟩ (.obj .nil) [] ⟨[], []⟩ rfl (by simp) (Or.inl rfl),
   claim_C4.2.2.2 "BINANCE" "BTCUSDT" "1m" 10 [] true (.ok true) (fun _ => none) "qs" "cs" []
     [] [] ⟨[], []⟩ rfl rfl rfl⟩

/-! ## Claims C5 and C6 -/

theorem get_data_append_terminal (evs evs' : List RecvEvent) (ev : RecvEvent)
    (h : ev = .closed ∨ ev = .sockErr) :
    get_data (evs ++ ev :: evs') = get_data evs := by
  induction evs with
  | nil =>
    rcases h with h | h <;> (subst h; rfl)
  | cons e es IH =>
    cases e with
    | closed => rfl
    | sockErr => rfl
    | msg s =>
      by_cases hh : isHeartbeat s
      · simp [get_data, hh, IH]
      · simp [get_data, hh, IH]

/-- C5 counterexample: the claim that a validation error is never raised as
an exception past the public call boundary fails for
`stream_realtime_price`: with an empty exchange the generator raises the
`ValueError` from `validate_symbols` to its caller (modelled as `.error`)
instead of producing an error envelope or stopping silently. -/
theorem claim_C5_counterexample :
    (stream_realtime_price "" "BTCUSDT" (.ok true) "qs" []).2
      = .error "exchange and symbol cannot be empty" := rfl

/-- C5 (amended): on every input on which symbol validation fails,
`get_candles` returns the error envelope
`{status: "failed", data: null, error: msg}` with no socket send having
happened (empty send trace), and never raises; `stream_realtime_price` also
performs no socket send before the failure, but propagates the validation
error as an exception to the caller iterating the generator (it does not
wrap it in an envelope). -/
theorem claim_C5 :
    (∀ (exchange symbol timeframe : String) (numb_candles : Nat)
      (indicators : List (String × String)) (val_oracle : Exc Bool)
      (fetch : Nat → Option (List Json)) (qs cs : String) (events : List RecvEvent)
      (e : String),
      validate_symbols exchange symbol val_oracle = .error e →
      get_candles exchange symbol timeframe numb_candles indicators val_oracle fetch qs cs
        events
        = (error_response e [("exchange", .str exchange), ("symbol", .str symbol)], []))
    ∧ (∀ (exchange symbol : String) (val_oracle : Exc Bool) (qs : String)
      (events : List RecvEvent) (e : String),
      validate_symbols exchange symbol val_oracle = .error e →
      stream_realtime_price exchange symbol val_oracle qs events = ([], .error e)) := by
  constructor
  · intro exchange symbol timeframe numb_candles indicators val_oracle fetch qs cs events e h
    rw [get_candles, h]
  · intro exchange symbol val_oracle qs events e h
    rw [stream_realtime_price, h]

/-- C5 witness: an empty exchange fails validation before any I/O — error
envelope from `get_candles`, raised exception from the stream generator. -/
theorem claim_C5_witness :
    get_candles "" "BTCUSDT" "1m" 10 [] (.ok true) (fun _ => none) "qs" "cs" []
      = (error_response "exchange and symbol cannot be empty"
          [("exchange", .str ""), ("symbol", .str "BTCUSDT")], [])
    ∧ stream_realtime_price "" "BTCUSDT" (.ok true) "qs" []
      = ([], .error "exchange and symbol cannot be empty") :=
  ⟨claim_C5.1 "" "BTCUSDT" "1m" 10 [] (.ok true) (fun _ => none) "qs" "cs" [] _ rfl,
   claim_C5.2 "" "BTCUSDT" (.ok true) "qs" [] _ rfl⟩

/-- C6: a `WebSocketConnectionClosedException` or lower-level socket error
mid-stream ends the receive loop with no exception propagating: events after
the error are never processed, `get_candles` returns the data accumulated up
to that point as a success-shaped envelope, and the live-price generator's
action stream is exactly the pre-error one and terminates normally (`.ok`,
i.e. generator exhaustion, not an exception). -/
theorem claim_C6 :
    (∀ (evs evs' : List RecvEvent) (ev : RecvEvent), ev = .closed ∨ ev = .sockErr →
      get_data (evs ++ ev :: evs') = get_data evs)
    ∧ (∀ (exchange symbol timeframe : String) (numb_candles : Nat)
      (indicators : List (String × String)) (b : Bool) (val_oracle : Exc Bool)
      (fetch : Nat → Option (List Json)) (qs cs : String) (evs evs' : List RecvEvent)
      (ev : RecvEvent) (table : List (String × String)) (sends2 : List Sent) (s : LoopState),
      (ev = .closed ∨ ev = .sockErr) →
      validate_symbols exchange symbol val_oracle = .ok b →
      (if !indicators.isEmpty then add_indicators qs fetch indicators
        else ([], .ok [])) = (sends2, .ok table) →
      run_loop table numb_candles (if !indicators.isEmpty then indicators.length else 0)
        (!indicators.isEmpty) 0 ⟨[], []⟩ (packetsOf evs) = .ok s →
      (get_candles exchange symbol timeframe numb_candles indicators val_oracle fetch qs cs
          (evs ++ ev :: evs')).1
        = success_response (.obj (.cons "ohlcv" (.arr (ofListA s.ohlcv))
            (.cons "indicators" (.obj (ofPairsO s.ind)) .nil)))
            [("exchange", .str exchange), ("symbol", .str symbol),
             ("timeframe", .str timeframe), ("numb_candles", .num (numb_candles : Int))])
    ∧ (∀ (exchange symbol : String) (b : Bool) (val_oracle : Exc Bool) (qs : String)
      (evs evs' : List RecvEvent) (ev : RecvEvent) (acts : List StreamAct),
      (ev = .closed ∨ ev = .sockErr) →
      validate_symbols exchange symbol val_oracle = .ok b →
      stream_body exchange symbol (get_data evs) = .ok acts →
      (stream_realtime_price exchange symbol val_oracle qs (evs ++ ev :: evs')).2
        = .ok acts) := by
  refine ⟨get_data_append_terminal, ?_, ?_⟩
  · intro exchange symbol timeframe numb_candles indicators b val_oracle fetch qs cs evs evs'
      ev table sends2 s hev hval hind hrun
    have hpk : packetsOf (evs ++ ev :: evs') = packetsOf evs := by
      rw [packetsOf, get_data_append_terminal evs evs' ev hev]
      rfl
    rw [get_candles_success_of_ok exchange symbol timeframe numb_candles indicators b
      val_oracle fetch qs cs (evs ++ ev :: evs') table sends2 s hval hind
      (by rw [hpk]; exact hrun)]
  · intro exchange symbol b val_oracle qs evs evs' ev acts hev hval hbody
    rw [stream_realtime_price, hval]
    rw [get_data_append_terminal evs evs' ev hev]
    exact hbody

/-- C6 witness: a connection closed as the very first event — `get_candles`
returns an empty-data success envelope; the stream generator exhausts with
no yields. -/
theorem claim_C6_witness :
    get_data ([] ++ RecvEvent.closed :: []) = get_data []
    ∧ (get_candles "BINANCE" "BTCUSDT" "1m" 10 [] (.ok true) (fun _ => none) "qs" "cs"
        ([] ++ RecvEvent.closed :: [])).1
      = success_response (.obj (.cons "ohlcv" (.arr (ofListA ([] : List Json)))
          (.cons "indicators" (.obj (ofPairsO ([] : List (String × Json)))) .nil)))
          [("exchange", .str "BINANCE"), ("symbol", .str "BTCUSDT"),
           ("timeframe", .str "1m"), ("numb_candles", .num (10 : Int))]
    ∧ (stream_realtime_price "BINANCE" "BTCUSDT" (.ok true) "qs"
        ([] ++ RecvEvent.closed :: [])).2 = .ok [] :=
  ⟨claim_C6.1 [] [] .closed (Or.inl rfl),
   claim_C6.2.1 "BINANCE" "BTCUSDT" "1m" 10 [] true (.ok true) (fun _ => none) "qs" "cs"
     [] [] .closed [] [] ⟨[], []⟩ (Or.inl rfl) rfl rfl rfl,
   claim_C6.2.2 "BINANCE" "BTCUSDT" true (.ok true) "qs" [] [] .closed [] (Or.inl rfl) rfl
     rfl⟩

theorem jGetD_obj (kvs : JsonO) (k : String) (d : Json) :
    jGetD (.obj kvs) k d = .ok ((lookupO kvs k).getD d) := rfl

/-! ## Claim C9 -/

/-- C9: every `qsd` packet seen by the live-price generator (with a dict in
`p[1]`) yields immediately exactly one normalized dict with keys exchange,
symbol, price, volume, change, change_percent, high, low, open, prev_close,
bid, ask — the vendor fields of `p[1]["v"]` mapped `lp`→price, `ch`→change,
`chp`→change_percent, `high_price`/`low_price`/`open_price`/
`prev_close_price` to high/low/open/prev_close.  Concretely, one heartbeat
frame followed by one framed `qsd` packet with `v.lp = 42000` yields exactly
one update with price 42000, after the heartbeat has been echoed. -/
theorem claim_C9 :
    (∀ (exchange symbol : String) (sid : Json) (p1 vkvs : JsonO)
      (rest : List WireAct) (acts : List StreamAct),
      (lookupO p1 "v").getD (.obj .nil) = .obj vkvs →
      stream_body exchange symbol rest = .ok acts →
      stream_body exchange symbol (.packet (mk_qsd_pkt sid p1) :: rest)
        = .ok (.yielded (.obj (ofPairsO
            [("exchange", (lookupO vkvs "exchange").getD (.str exchange)),
             ("symbol", (lookupO vkvs "short_name").getD (.str symbol)),
             ("price", (lookupO vkvs "lp").getD .null),
             ("volume", (lookupO vkvs "volume").getD .null),
             ("change", (lookupO vkvs "ch").getD .null),
             ("change_percent", (lookupO vkvs "chp").getD .null),
             ("high", (lookupO vkvs "high_price").getD .null),
             ("low", (lookupO vkvs "low_price").getD .null),
             ("open", (lookupO vkvs "open_price").getD .null),
             ("prev_close", (lookupO vkvs "prev_close_price").getD .null),
             ("bid", (lookupO vkvs "bid").getD .null),
             ("ask", (lookupO vkvs "ask").getD .null)])) :: acts))
    ∧ (stream_realtime_price "BINANCE" "BTCUSDT" (.ok true) "qs_test"
        [.msg (mk_heartbeat 4 42),
         .msg (prepend_header (dumps (mk_qsd_pkt (.str "qs_test")
           (.cons "v" (.obj (.cons "lp" (.num 42000) .nil)) .nil))))]).2
      = .ok [.echoed (mk_heartbeat 4 42),
             .yielded (.obj (ofPairsO
               [("exchange", .str "BINANCE"), ("symbol", .str "BTCUSDT"),
                ("price", .num 42000), ("volume", .null), ("change", .null),
                ("change_percent", .null), ("high", .null), ("low", .null),
                ("open", .null), ("prev_close", .null), ("bid", .null),
                ("ask", .null)]))] := by
  constructor
  · intro exchange symbol sid p1 vkvs rest acts hv hacts
    simp [stream_body, mk_qsd_pkt, jGet?, lookupO, optEqStr, jLen, lenA, jIndex,
      toListA, Bind.bind, Except.bind, qsd_update, jGetD_obj, hv, hacts,
      Pure.pure, Except.pure]
  · rfl

/-- C9 witness: a single `qsd` packet with `lp = 1` yields exactly one
normalized update. -/
theorem claim_C9_witness :
    stream_body "BINANCE" "BTCUSDT"
        [.packet (mk_qsd_pkt (.str "q") (.cons "v" (.obj (.cons "lp" (.num 1) .nil)) .nil))]
      = .ok [.yielded (.obj (ofPairsO
          [("exchange", .str "BINANCE"), ("symbol", .str "BTCUSDT"), ("price", .num 1),
           ("volume", .null), ("change", .null), ("change_percent", .null), ("high", .null),
           ("low", .null), ("open", .null), ("prev_close", .null), ("bid", .null),
           ("ask", .null)]))] :=
  claim_C9.1 "BINANCE" "BTCUSDT" (.str "q") (.cons "v" (.obj (.cons "lp" (.num 1) .nil)) .nil)
    (.cons "lp" (.num 1) .nil) [] [] rfl rfl

/-! ## Claim C3 -/

theorem natDec_val (n : Nat) : parseDigits (natDec n) 0 = (n, []) := by
  have h := parseDigits_natDec n 0 []
  rw [List.append_nil] at h
  rw [h]
  simp [parseDigits]

theorem natDec_inj {a b : Nat} (h : natDec a = natDec b) : a = b := by
  have ha := natDec_val a
  rw [h, natDec_val b] at ha
  exact (Prod.ext_iff.mp ha).1.symm

theorem natDecStr_inj {a b : Nat} (h : natDecStr a = natDecStr b) : a = b := by
  have hd := congrArg String.data h
  exact natDec_inj hd

theorem natDecStr_ne_index (n : Nat) : natDecStr n ≠ "index" := by
  intro h
  have hd : natDec n = ['i', 'n', 'd', 'e', 'x'] := congrArg String.data h
  obtain ⟨d, ds, hnd, hdig⟩ := natDec_cons n
  rw [hnd] at hd
  injection hd with h1 _
  rw [h1] at hdig
  exact absurd hdig (by decide)

theorem natDecStr_ne_timestamp (n : Nat) : natDecStr n ≠ "timestamp" := by
  intro h
  have hd : natDec n = ['t', 'i', 'm', 'e', 's', 't', 'a', 'm', 'p'] := congrArg String.data h
  obtain ⟨d, ds, hnd, hdig⟩ := natDec_cons n
  rw [hnd] at hd
  injection hd with h1 _
  rw [h1] at hdig
  exact absurd hdig (by decide)

theorem toListA_ofListA (l : List Json) : toListA (ofListA l) = l := by
  induction l with
  | nil => rfl
  | cons x tl IH => simp [toListA, ofListA, IH]

theorem lenA_ofListA (l : List Json) : lenA (ofListA l) = l.length := by
  induction l with
  | nil => rfl
  | cons x tl IH => simp [lenA, ofListA, IH]

theorem mapM_ok {α β : Type} (f : α → Exc β) (g : α → β) :
    ∀ l : List α, (∀ x ∈ l, f x = .ok (g x)) → l.mapM f = .ok (l.map g) := by
  intro l
  induction l with
  | nil => intro _; rfl
  | cons x tl IH =>
    intro h
    have h2 := IH (fun y hy => h y (by simp [hy]))
    rw [List.mapM_cons, h x (by simp)]
    simp only [Bind.bind, Except.bind]
    rw [h2]
    rfl

theorem dictUpdate_enum (vals : List Json) : ∀ (base : List (String × Json)) (j : Nat),
    (∀ p ∈ base, p.1 = "index" ∨ p.1 = "timestamp" ∨ ∃ m, m < j ∧ p.1 = natDecStr m) →
    dictUpdate base (enumPairs j vals) = base ++ enumPairs j vals := by
  induction vals with
  | nil => intro base j _; simp [enumPairs, dictUpdate]
  | cons v vs IH =>
    intro base j hb
    have hnone : slookup base (natDecStr j) = none := by
      cases hsl : slookup base (natDecStr j) with
      | none => rfl
      | some w =>
        exfalso
        have hmem := slookup_some_mem_keys hsl
        simp only [List.mem_map] at hmem
        obtain ⟨p, hp, hpk⟩ := hmem
        rcases hb p hp with h1 | h1 | ⟨m, hm, h1⟩
        · exact natDecStr_ne_index j (by rw [← hpk, h1])
        · exact natDecStr_ne_timestamp j (by rw [← hpk, h1])
        · have h2 := natDecStr_inj (show natDecStr m = natDecStr j from by rw [← h1, hpk])
          omega
    show dictUpdate (dictInsert base (natDecStr j) v) (enumPairs (j + 1) vs) = _
    rw [dictInsert_append_of_none base _ v hnone]
    rw [IH (base ++ [(natDecStr j, v)]) (j + 1) ?_]
    · simp [enumPairs]
    · intro p hp
      rcases List.mem_append.mp hp with h1 | h1
      · rcases hb p h1 with h2 | h2 | ⟨m, hm, h2⟩
        · exact Or.inl h2
        · exact Or.inr (Or.inl h2)
        · exact Or.inr (Or.inr ⟨m, by omega, h2⟩)
      · simp at h1
        exact Or.inr (Or.inr ⟨j, by omega, by rw [h1]⟩)

theorem convert_mk_st_entry (i : Int) (ts : Json) (vals : List Json) :
    convert_ind_entry (mk_st_entry i ts vals)
      = .ok (.obj (ofPairsO (("index", Json.num i) :: ("timestamp", ts)
          :: enumPairs 0 vals))) := by
  have hupd := dictUpdate_enum vals [("index", Json.num i), ("timestamp", ts)] 0 (by
    intro p hp
    simp only [List.mem_cons, List.mem_singleton, List.not_mem_nil, or_false] at hp
    rcases hp with h | h
    · exact Or.inl (by rw [h])
    · exact Or.inr (Or.inl (by rw [h])))
  simp [convert_ind_entry, mk_st_entry, jGetItem, lookupO, jIndex, toListA, jSlice1, jIter,
    Bind.bind, Except.bind, toListA_ofListA, Pure.pure, Except.pure, hupd]

theorem mapM_convert (items : List (Int × Json × List Json)) :
    (items.map (fun t => mk_st_entry t.1 t.2.1 t.2.2)).mapM convert_ind_entry
      = .ok (items.map (fun t => Json.obj (ofPairsO (("index", Json.num t.1)
          :: ("timestamp", t.2.1) :: enumPairs 0 t.2.2)))) := by
  induction items with
  | nil => rfl
  | cons x tl IH =>
    simp only [List.map_cons, List.mapM_cons, convert_mk_st_entry, Bind.bind, Except.bind, IH]
    rfl

theorem extract_ind_go_skip (table : List (String × String)) :
    ∀ (pairs acc : List (String × Json)),
    (∀ p ∈ pairs, (pyStartsWith p.1 "st" && (slookup table p.1).isSome) = false ∨
      pyContainsStr p.2 "st" = .ok false ∨
      ∃ arr n, pyContainsStr p.2 "st" = .ok true ∧ jGetItem p.2 "st" = .ok arr ∧
        jLen arr = .ok n ∧ n ≤ 10) →
    extract_ind_go table pairs acc = .ok acc := by
  intro pairs
  induction pairs with
  | nil => intro acc _; rfl
  | cons p tl IH =>
    intro acc h
    obtain ⟨key, val⟩ := p
    have htl : extract_ind_go table tl acc = .ok acc :=
      IH acc (fun q hq => h q (by simp [hq]))
    rcases h (key, val) (by simp) with h1 | h1 | ⟨arr, n, h1, h2, h3, h4⟩
    · simp only [extract_ind_go, h1, Bool.false_eq_true, if_false]
      exact htl
    · by_cases hc : (pyStartsWith key "st" && (slookup table key).isSome) = true
      · simp only [extract_ind_go, hc, if_true, h1, Bind.bind, Except.bind,
          Bool.false_eq_true, if_false]
        exact htl
      · simp only [extract_ind_go, if_neg hc]
        exact htl
    · by_cases hc : (pyStartsWith key "st" && (slookup table key).isSome) = true
      · simp only [extract_ind_go, hc, if_true, h1, h2, h3, Bind.bind, Except.bind]
        rw [if_neg (by omega)]
        exact htl
      · simp only [extract_ind_go, if_neg hc]
        exact htl

theorem extract_ind_single (table : List (String × String)) (key name : String)
    (items : List (Int × Json × List Json)) (acc : List (String × Json))
    (hk : pyStartsWith key "st" = true) (ht : slookup table key = some name)
    (hn : 10 < items.length) :
    extract_ind_go table
      [(key, .obj (.cons "st"
        (.arr (ofListA (items.map (fun t => mk_st_entry t.1 t.2.1 t.2.2)))) .nil))] acc
      = .ok (dictInsert acc name (.arr (ofListA (items.map (fun t =>
          Json.obj (ofPairsO (("index", Json.num t.1) :: ("timestamp", t.2.1)
            :: enumPairs 0 t.2.2))))))) := by
  have hc : (pyStartsWith key "st" && (slookup table key).isSome) = true := by
    rw [hk, ht]; rfl
  simp only [extract_ind_go, hc, if_true, pyContainsStr, lookupO, if_pos rfl,
    Option.isSome_some, jGetItem, jLen, lenA_ofListA, List.length_map, jIter,
    toListA_ofListA, Bind.bind, Except.bind, if_pos hn, mapM_convert, ht,
    Option.getD_some]
  simp [hk]

theorem extract_ind_go_nodup (table : List (String × String)) :
    ∀ (pairs acc ri : List (String × Json)), (acc.map Prod.fst).Nodup →
      extract_ind_go table pairs acc = .ok ri → (ri.map Prod.fst).Nodup := by
  intro pairs
  induction pairs with
  | nil =>
    intro acc ri hnd h
    simp only [extract_ind_go] at h
    rw [← Except.ok.inj h]
    exact hnd
  | cons p tl IH =>
    intro acc ri hnd h
    obtain ⟨key, val⟩ := p
    simp only [extract_ind_go] at h
    by_cases hc : (pyStartsWith key "st" && (slookup table key).isSome) = true
    · rw [if_pos hc] at h
      cases hst : pyContainsStr val "st" with
      | error e => rw [hst] at h; simp [Bind.bind, Except.bind] at h
      | ok b =>
        rw [hst] at h
        simp only [Bind.bind, Except.bind] at h
        cases b with
        | false =>
          simp only [Bool.false_eq_true, if_false] at h
          exact IH acc ri hnd h
        | true =>
          simp only [if_true] at h
          cases harr : jGetItem val "st" with
          | error e => rw [harr] at h; simp at h
          | ok arr =>
            rw [harr] at h
            simp only [] at h
            cases hlen : jLen arr with
            | error e => rw [hlen] at h; simp at h
            | ok n =>
              rw [hlen] at h
              simp only [] at h
              by_cases hn : 10 < n
              · rw [if_pos hn] at h
                cases hit : jIter arr with
                | error e => rw [hit] at h; simp at h
                | ok items =>
                  rw [hit] at h
                  simp only [] at h
                  cases hconv : items.mapM convert_ind_entry with
                  | error e => rw [hconv] at h; simp at h
                  | ok converted =>
                    rw [hconv] at h
                    simp only [] at h
                    exact IH _ ri (dictInsert_keys_nodup acc _ _ hnd) h
              · rw [if_neg hn] at h
                exact IH acc ri hnd h
    · rw [if_neg hc] at h
      exact IH acc ri hnd h

theorem extract_ind_nodup (table : List (String × String)) (pkt : Json)
    (ri : List (String × Json)) (h : extract_indicator_from_stream table pkt = .ok ri) :
    (ri.map Prod.fst).Nodup := by
  simp only [extract_indicator_from_stream, Bind.bind, Except.bind] at h
  cases hm : jGet? pkt "m" with
  | error e => rw [hm] at h; simp at h
  | ok m =>
    rw [hm] at h
    simp only [] at h
    by_cases hdu : (!optEqStr m "du") = true
    · rw [if_pos hdu] at h
      rw [← Except.ok.inj h]
      simp
    · rw [if_neg hdu] at h
      cases hp : jGetD pkt "p" (.arr .nil) with
      | error e => rw [hp] at h; simp at h
      | ok p =>
        rw [hp] at h
        simp only [] at h
        cases hlen : jLen p with
        | error e => rw [hlen] at h; simp at h
        | ok n =>
          rw [hlen] at h
          simp only [] at h
          by_cases hn : n ≤ 1
          · rw [if_pos hn] at h
            rw [← Except.ok.inj h]
            simp
          · rw [if_neg hn] at h
            cases hp1 : jIndex p 1 with
            | error e => rw [hp1] at h; simp at h
            | ok p1 =>
              rw [hp1] at h
              simp only [] at h
              cases p1 with
              | obj kvs => exact extract_ind_go_nodup table (pairsO kvs) [] ri (by simp) h
              | null => rw [← Except.ok.inj h]; simp
              | bool b => rw [← Except.ok.inj h]; simp
              | num v => rw [← Except.ok.inj h]; simp
              | str s => rw [← Except.ok.inj h]; simp
              | arr xs => rw [← Except.ok.inj h]; simp

theorem extract_ind_du (table : List (String × String)) (sid : Json) (kvs : JsonO) :
    extract_indicator_from_stream table (mk_du_pkt sid kvs)
      = extract_ind_go table (pairsO kvs) [] := by
  simp [extract_indicator_from_stream, mk_du_pkt, jGet?, lookupO, optEqStr, jGetD,
    jLen, lenA, jIndex, toListA, Bind.bind, Except.bind, Pure.pure, Except.pure,
    Except.map]

theorem extract_ind_step (table : List (String × String)) (key name : String)
    (items : List (Int × Json × List Json)) (rest acc : List (String × Json))
    (hk : pyStartsWith key "st" = true) (ht : slookup table key = some name)
    (hn : 10 < items.length) :
    extract_ind_go table
      ((key, .obj (.cons "st"
        (.arr (ofListA (items.map (fun t => mk_st_entry t.1 t.2.1 t.2.2)))) .nil)) :: rest) acc
      = extract_ind_go table rest (dictInsert acc name (.arr (ofListA (items.map (fun t =>
          Json.obj (ofPairsO (("index", Json.num t.1) :: ("timestamp", t.2.1)
            :: enumPairs 0 t.2.2))))))) := by
  have hc : (pyStartsWith key "st" && (slookup table key).isSome) = true := by
    rw [hk, ht]; rfl
  simp only [extract_ind_go, hc, if_true, pyContainsStr, lookupO, if_pos rfl,
    Option.isSome_some, jGetItem, jLen, lenA_ofListA, List.length_map, jIter,
    toListA_ofListA, Bind.bind, Except.bind, if_pos hn, mapM_convert, ht,
    Option.getD_some]
  simp [hk]

/-- C3: for a `du` packet, indicator data is registered only for keys of `p[1]`
that start with `"st"`, are present in the study registration table, and whose
`"st"` sub-array has strictly more than 10 entries — a packet all of whose
`p[1]` members fail one of these conditions (in particular one whose `st` array
has 10 or fewer entries) contributes nothing; a qualifying packet converts each
entry `{"i": i, "v": [ts, v0, v1, ...]}` to
`{"index": i, "timestamp": ts, "0": v0, "1": v1, ...}` and stores the converted
list under the resolved indicator name; and a later qualifying key resolving to
the same name overwrites the earlier entry for that name. -/
theorem claim_C3 :
    (∀ (table : List (String × String)) (sid : Json) (kvs : JsonO),
      (∀ p ∈ pairsO kvs,
        (pyStartsWith p.1 "st" && (slookup table p.1).isSome) = false ∨
        pyContainsStr p.2 "st" = Except.ok false ∨
        ∃ arr n, pyContainsStr p.2 "st" = Except.ok true ∧
          jGetItem p.2 "st" = Except.ok arr ∧ jLen arr = Except.ok n ∧ n ≤ 10) →
      extract_indicator_from_stream table (mk_du_pkt sid kvs) = Except.ok []) ∧
    (∀ (table : List (String × String)) (sid : Json) (key name : String)
        (items : List (Int × Json × List Json)),
      pyStartsWith key "st" = true → slookup table key = some name →
      10 < items.length →
      extract_indicator_from_stream table (mk_du_pkt sid (.cons key
          (.obj (.cons "st" (.arr (ofListA (items.map
            (fun t => mk_st_entry t.1 t.2.1 t.2.2)))) .nil)) .nil))
        = Except.ok [(name, Json.arr (ofListA (items.map (fun t =>
            Json.obj (ofPairsO (("index", Json.num t.1) :: ("timestamp", t.2.1)
              :: enumPairs 0 t.2.2))))))]) ∧
    (∀ (table : List (String × String)) (sid : Json) (key1 key2 name : String)
        (items1 items2 : List (Int × Json × List Json)),
      pyStartsWith key1 "st" = true → pyStartsWith key2 "st" = true →
      slookup table key1 = some name → slookup table key2 = some name →
      10 < items1.length → 10 < items2.length →
      extract_indicator_from_stream table (mk_du_pkt sid
          (.cons key1 (.obj (.cons "st" (.arr (ofListA (items1.map
            (fun t => mk_st_entry t.1 t.2.1 t.2.2)))) .nil))
          (.cons key2 (.obj (.cons "st" (.arr (ofListA (items2.map
            (fun t => mk_st_entry t.1 t.2.1 t.2.2)))) .nil)) .nil)))
        = Except.ok [(name, Json.arr (ofListA (items2.map (fun t =>
            Json.obj (ofPairsO (("index", Json.num t.1) :: ("timestamp", t.2.1)
              :: enumPairs 0 t.2.2))))))]) := by
  refine ⟨?_, ?_, ?_⟩
  · intro table sid kvs h
    rw [extract_ind_du]
    exact extract_ind_go_skip table (pairsO kvs) [] h
  · intro table sid key name items hk ht hn
    rw [extract_ind_du]
    show extract_ind_go table [(key, _)] [] = _
    rw [extract_ind_single table key name items [] hk ht hn]
    rfl
  · intro table sid key1 key2 name items1 items2 hk1 hk2 ht1 ht2 hn1 hn2
    rw [extract_ind_du]
    show extract_ind_go table [(key1, _), (key2, _)] [] = _
    rw [extract_ind_step table key1 name items1 _ [] hk1 ht1 hn1]
    rw [extract_ind_single table key2 name items2 _ hk2 ht2 hn2]
    simp [dictInsert]

theorem claim_C3_witness :
    extract_indicator_from_stream [("st9", "RSI")] (mk_du_pkt (.str "cs")
        (.cons "st9" (.obj (.cons "st" (.arr (ofListA
          (([((0 : Int), Json.num 0, ([] : List Json))]).map
            (fun t => mk_st_entry t.1 t.2.1 t.2.2)))) .nil)) .nil)) = Except.ok [] ∧
    extract_indicator_from_stream [("st9", "RSI")] (mk_du_pkt (.str "cs")
        (.cons "st9" (.obj (.cons "st" (.arr (ofListA
          (((List.range 11).map (fun j => ((j : Int), Json.num 0, ([] : List Json)))).map
            (fun t => mk_st_entry t.1 t.2.1 t.2.2)))) .nil)) .nil))
      = Except.ok [("RSI", Json.arr (ofListA
          (((List.range 11).map (fun j => ((j : Int), Json.num 0, ([] : List Json)))).map (fun t =>
            Json.obj (ofPairsO (("index", Json.num t.1) :: ("timestamp", t.2.1)
              :: enumPairs 0 t.2.2))))))] ∧
    extract_indicator_from_stream [("st9", "RSI"), ("st10", "RSI")] (mk_du_pkt (.str "cs")
        (.cons "st9" (.obj (.cons "st" (.arr (ofListA
          (((List.range 11).map (fun j => ((j : Int), Json.num 1, ([] : List Json)))).map
            (fun t => mk_st_entry t.1 t.2.1 t.2.2)))) .nil))
        (.cons "st10" (.obj (.cons "st" (.arr (ofListA
          (((List.range 11).map (fun j => ((j : Int), Json.num 2, ([] : List Json)))).map
            (fun t => mk_st_entry t.1 t.2.1 t.2.2)))) .nil)) .nil)))
      = Except.ok [("RSI", Json.arr (ofListA
          (((List.range 11).map (fun j => ((j : Int), Json.num 2, ([] : List Json)))).map (fun t =>
            Json.obj (ofPairsO (("index", Json.num t.1) :: ("timestamp", t.2.1)
              :: enumPairs 0 t.2.2))))))] :=
  ⟨claim_C3.1 [("st9", "RSI")] (.str "cs") _ (by
      intro p hp
      simp only [pairsO, List.mem_cons, List.not_mem_nil, or_false] at hp
      subst hp
      exact Or.inr (Or.inr ⟨_, 1, rfl, rfl, rfl, by omega⟩)),
   claim_C3.2.1 [("st9", "RSI")] (.str "cs") "st9" "RSI" _ (by decide) (by decide) (by decide),
   claim_C3.2.2 [("st9", "RSI"), ("st10", "RSI")] (.str "cs") "st9" "st10" "RSI" _ _
     (by decide) (by decide) (by decide) (by decide) (by decide) (by decide)⟩

theorem study_id_of_inj {a b : Nat} (h : study_id_of a = study_id_of b) : a = b := by
  have hd := congrArg String.data h
  simp only [study_id_of, String.data_append, natDecStr] at hd
  have h2 : natDec (9 + a) = natDec (9 + b) := List.append_cancel_left hd
  have h3 := natDec_inj h2
  omega

theorem add_indicators_go_run (qs : String) (fetch : Nat → Option (List Json)) :
    ∀ (inds : List (String × String)) (idx0 : Nat) (table0 : List (String × String))
      (sends0 : List Sent),
    (∀ i p, fetch i = some p → 2 ≤ p.length) →
    (∀ k ∈ table0.map Prod.fst, ∃ j, j < idx0 ∧ k = study_id_of j) →
    add_indicators_go qs fetch idx0 table0 inds sends0
      = (sends0 ++ add_indicators_spec_sends qs fetch idx0 inds,
         .ok (table0 ++ add_indicators_spec_table fetch idx0 inds)) := by
  intro inds
  induction inds with
  | nil =>
    intro idx0 table0 sends0 _ _
    simp [add_indicators_go, add_indicators_spec_sends, add_indicators_spec_table]
  | cons ind rest IH =>
    intro idx0 table0 sends0 hf htab
    obtain ⟨script_id, ver⟩ := ind
    simp only [add_indicators_go, add_indicators_spec_sends, add_indicators_spec_table]
    cases hfi : fetch idx0 with
    | none =>
      rw [IH (idx0 + 1) table0 sends0 hf
        (fun k hk => by obtain ⟨j, hj, he⟩ := htab k hk; exact ⟨j, by omega, he⟩)]
      simp
    | some p =>
      simp only []
      rw [if_neg (by have := hf idx0 p hfi; omega)]
      rw [IH (idx0 + 1) (dictInsert table0 (study_id_of idx0) script_id) _ hf
        (fun k hk => by
          rcases dictInsert_keys_sub table0 (study_id_of idx0) script_id k hk with h1 | h1
          · exact ⟨idx0, by omega, h1⟩
          · obtain ⟨j, hj, he⟩ := htab k h1; exact ⟨j, by omega, he⟩)]
      have hnone : slookup table0 (study_id_of idx0) = none := by
        cases hsl : slookup table0 (study_id_of idx0) with
        | none => rfl
        | some w =>
          exfalso
          obtain ⟨j, hj, he⟩ := htab _ (slookup_some_mem_keys hsl)
          have := study_id_of_inj he.symm
          omega
      rw [dictInsert_append_of_none table0 _ script_id hnone]
      simp

theorem spec_table_keys (fetch : Nat → Option (List Json)) :
    ∀ (inds : List (String × String)) (idx : Nat) (k : String),
      k ∈ (add_indicators_spec_table fetch idx inds).map Prod.fst →
      ∃ j, idx ≤ j ∧ k = study_id_of j := by
  intro inds
  induction inds with
  | nil => intro idx k h; simp [add_indicators_spec_table] at h
  | cons ind rest IH =>
    intro idx k h
    obtain ⟨sid, ver⟩ := ind
    simp only [add_indicators_spec_table, List.map_append, List.mem_append] at h
    rcases h with h | h
    · cases hfi : fetch idx with
      | none => rw [hfi] at h; simp at h
      | some p =>
        rw [hfi] at h
        simp at h
        exact ⟨idx, by omega, h⟩
    · obtain ⟨j, hj, he⟩ := IH (idx + 1) k h
      exact ⟨j, by omega, he⟩

theorem spec_table_nodup (fetch : Nat → Option (List Json)) :
    ∀ (inds : List (String × String)) (idx : Nat),
      ((add_indicators_spec_table fetch idx inds).map Prod.fst).Nodup := by
  intro inds
  induction inds with
  | nil => intro idx; simp [add_indicators_spec_table]
  | cons ind rest IH =>
    intro idx
    obtain ⟨sid, ver⟩ := ind
    simp only [add_indicators_spec_table, List.map_append]
    cases hfi : fetch idx with
    | none => simpa using IH (idx + 1)
    | some p =>
      simp only [List.map_cons, List.map_nil]
      rw [List.nodup_append]
      refine ⟨by simp, IH (idx + 1), ?_⟩
      intro a ha hb
      simp only [List.mem_singleton] at ha
      obtain ⟨j, hj, he⟩ := spec_table_keys fetch rest (idx + 1) a hb
      have := study_id_of_inj (he.symm.trans ha)
      omega

/-- C8: for every requested indicator list (given that every fetched
`create_study` payload has at least two slots, as the protocol guarantees),
`_add_indicators` sends and registers exactly what
`add_indicators_spec_sends` / `add_indicators_spec_table` describe: the
indicator at 0-based position `idx` whose metadata fetch succeeds gets study
id `"st" + (9 + idx)`, the registration table maps that study id to the
indicator's script id, the payload's slot 1 is overwritten with the study id
before `create_study` is sent, a fetch failure skips that indicator (no table
entry, no `create_study`) without aborting the rest, and the table's keys are
pairwise distinct (no study id is reused within one request). -/
theorem claim_C8 (qs : String) (fetch : Nat → Option (List Json))
    (inds : List (String × String))
    (hf : ∀ i p, fetch i = some p → 2 ≤ p.length) :
    add_indicators qs fetch inds
      = (add_indicators_spec_sends qs fetch 0 inds,
         .ok (add_indicators_spec_table fetch 0 inds))
    ∧ ((add_indicators_spec_table fetch 0 inds).map Prod.fst).Nodup := by
  refine ⟨?_, spec_table_nodup fetch inds 0⟩
  have h := add_indicators_go_run qs fetch inds 0 [] [] hf (by simp)
  simpa [add_indicators] using h

theorem claim_C8_witness :
    add_indicators "qs" (fun i => match i with
        | 0 => some [Json.str "a", Json.str "b"]
        | 2 => some [Json.str "c", Json.str "d", Json.str "e"]
        | _ => none)
      [("SCRIPT_A", "1"), ("SCRIPT_B", "1"), ("SCRIPT_C", "2")]
      = (add_indicators_spec_sends "qs" (fun i => match i with
          | 0 => some [Json.str "a", Json.str "b"]
          | 2 => some [Json.str "c", Json.str "d", Json.str "e"]
          | _ => none) 0 [("SCRIPT_A", "1"), ("SCRIPT_B", "1"), ("SCRIPT_C", "2")],
         .ok (add_indicators_spec_table (fun i => match i with
          | 0 => some [Json.str "a", Json.str "b"]
          | 2 => some [Json.str "c", Json.str "d", Json.str "e"]
          | _ => none) 0 [("SCRIPT_A", "1"), ("SCRIPT_B", "1"), ("SCRIPT_C", "2")]))
    ∧ ((add_indicators_spec_table (fun i => match i with
          | 0 => some [Json.str "a", Json.str "b"]
          | 2 => some [Json.str "c", Json.str "d", Json.str "e"]
          | _ => none) 0
        [("SCRIPT_A", "1"), ("SCRIPT_B", "1"), ("SCRIPT_C", "2")]).map Prod.fst).Nodup :=
  claim_C8 "qs" (fun i => match i with
      | 0 => some [Json.str "a", Json.str "b"]
      | 2 => some [Json.str "c", Json.str "d", Json.str "e"]
      | _ => none)
    [("SCRIPT_A", "1"), ("SCRIPT_B", "1"), ("SCRIPT_C", "2")]
    (by
      intro i p h
      rcases i with _ | _ | _ | i
      · rw [← Option.some.inj h]; decide
      · exact Option.noConfusion h
      · rw [← Option.some.inj h]; decide
      · exact Option.noConfusion h)
